import Mathlib

/-! Server Monitor CLI: a shallow embedding.

The development embeds the two Go programs of the repository:

* `main.go` (interactive log tailer): `defaultLogPaths`, `getOsType`,
  `getLogPath`, `askServerType`, `tailLogFile`, `handleLogs`;
* `Go CLI tool/cli.go` (daemon monitor and live TCP server): `Config`,
  `linuxLogs`, `windowsLogs`, `firstTimeSetup`, `runAndCapture`,
  `startLiveServer`, `handleConnection`.

Go maps are association lists, Go strings are `String`, file contents are
lists of bytes (`Bytes`).  Effects are made explicit: the operating system is
an oracle threaded through the functions, standard input is passed in as the
lines that are read, and the endless loops are run over a finite prefix of the
events they observe.
-/

namespace ServerMonitor

/-! ## main.go : default log paths -/

/-- The map `defaultLogPaths` of `main.go`: server name, then OS type, then path. -/
def defaultLogPaths : List (String × List (String × String)) :=
  [ ("nginx",
      [ ("linux", "/var/log/nginx/access.log"),
        ("windows", "C:\\nginx\\logs\\access.log") ]),
    ("apache",
      [ ("linux", "/var/log/apache2/access.log"),
        ("windows", "C:\\Apache24\\logs\\access.log") ]) ]

/-- The function `getOsType`; `goos` is the value of `runtime.GOOS`. -/
def getOsType (goos : String) : String :=
  if goos = "windows" then "windows" else "linux"

/-- The function `getLogPath`: the default path of a server, or `""`. -/
def getLogPath (goos server : String) : String :=
  if server = "custom" then ""
  else
    let osType := getOsType goos
    match defaultLogPaths.lookup server with
    | some paths =>
      match paths.lookup osType with
      | some p => p
      | none => ""
    | none => ""

/-- The acceptance test of `askServerType`:
`input == "custom" || defaultLogPaths[input] != nil`. -/
def serverTypeAccepted (input : String) : Bool :=
  input == "custom" || (defaultLogPaths.lookup input).isSome

/-- The function `askServerType` run over the lines typed on standard input
(each already lower-cased and trimmed): the first accepted line is returned;
`none` when the loop is still asking after all the given lines. -/
def askServerType : List String → Option String
  | [] => none
  | input :: rest =>
    if serverTypeAccepted input then some input else askServerType rest

/-- The function `askCustomLogPath` run over the lines typed on standard input
(each already trimmed); `stat p` tells whether `os.Stat(p)` succeeds.  The first
line naming an accessible file is returned; `none` when the loop is still asking. -/
def askCustomLogPath (stat : String → Bool) : List String → Option String
  | [] => none
  | path :: rest =>
    if stat path then some path else askCustomLogPath stat rest

/-! ## main.go : tailLogFile -/

/-- File contents and printed text are sequences of bytes. -/
abbrev Bytes := List Char

/-- The buffer size of `bufio.NewReader`. -/
def defaultBufSize : Nat := 4096

/-- A `bufio.Reader` over an open file: the offset of the file descriptor and
the bytes already read from the file and not yet handed out. -/
structure Reader where
  pos : Nat
  buf : Bytes
deriving DecidableEq

/-- Search of the buffer for the delimiter (`bytes.IndexByte(buf, 10)`): the
bytes up to and including the first newline, and the bytes after it. -/
def splitLine : Bytes → Option (Bytes × Bytes)
  | [] => none
  | c :: cs =>
    if c = '\n' then some ([c], cs)
    else
      match splitLine cs with
      | some (l, rest) => some (c :: l, rest)
      | none => none

/-- What `reader.ReadString(10)` gives back: the data, whether `err == nil`,
and the reader afterwards. -/
structure ReadResult where
  line : Bytes
  ok : Bool
  rd : Reader
deriving DecidableEq

/-- The loop of `bufio.Reader.ReadString` on a file holding `file`: look for a
newline in the buffer; failing that, set a full buffer aside (`ErrBufferFull`,
the fragment is accumulated in `acc`) or fill the buffer from the file; a fill
that reads nothing is end of file, and the data gathered so far is returned
together with the error.  `fuel` bounds the number of rounds; `readString`
supplies enough of it, so that the case of no fuel left is never reached. -/
def readStringAux (file : Bytes) : Nat → Reader → Bytes → ReadResult
  | 0, rd, acc => ⟨acc ++ rd.buf, false, ⟨rd.pos, []⟩⟩
  | fuel + 1, rd, acc =>
    match splitLine rd.buf with
    | some (l, rest) => ⟨acc ++ l, true, ⟨rd.pos, rest⟩⟩
    | none =>
      if defaultBufSize ≤ rd.buf.length then
        readStringAux file fuel ⟨rd.pos, []⟩ (acc ++ rd.buf)
      else
        let chunk := (file.drop rd.pos).take (defaultBufSize - rd.buf.length)
        if chunk = [] then ⟨acc ++ rd.buf, false, ⟨rd.pos, []⟩⟩
        else readStringAux file fuel ⟨rd.pos + chunk.length, rd.buf ++ chunk⟩ acc

/-- One call `reader.ReadString(10)`.  The fuel covers every round the loop can
make on a file of this length: more fuel gives the same result
(`readStringAux_fuel`), which is the first line of the stream still to be read
(`readStringAux_stream`). -/
def readString (file : Bytes) (rd : Reader) : ReadResult :=
  readStringAux file (2 * file.length + 3) rd []

/-- The state of a running `tailLogFile`: its reader, the number of iterations
of the tail loop made so far, and what it has printed (one entry per print). -/
structure Tailer where
  rd : Reader
  polls : Nat
  out : List Bytes
deriving DecidableEq

/-- One iteration of the `for` loop of `tailLogFile`: on an error the line is
thrown away and the loop sleeps; otherwise the line is printed. -/
def tailStep (file : Bytes) (t : Tailer) : Tailer :=
  let r := readString file t.rd
  if r.ok then
    { rd := r.rd, polls := t.polls + 1, out := t.out ++ [r.line] }
  else
    { rd := r.rd, polls := t.polls + 1, out := t.out }

/-- What happens while `tailLogFile` runs: another process appends to the file,
the file is truncated to `size` bytes (`size` at most its length), or the tail
loop makes one iteration. -/
inductive Event where
  | append (data : Bytes)
  | truncate (size : Nat)
  | poll
deriving DecidableEq

/-- The file and the tailer that follows it. -/
structure World where
  file : Bytes
  t : Tailer
deriving DecidableEq

/-- The effect of one event. -/
def step (w : World) : Event → World
  | .append data => { w with file := w.file ++ data }
  | .truncate size => { w with file := w.file.take size }
  | .poll => { w with t := tailStep w.file w.t }

/-- The tail loop run over a finite sequence of events. -/
def tailLoop (w : World) (events : List Event) : World :=
  events.foldl step w

/-- The bytes appended to the file by a sequence of events. -/
def appended : List Event → Bytes
  | [] => []
  | .append data :: rest => data ++ appended rest
  | _ :: rest => appended rest

/-- The complete lines of a byte sequence, in order: `cur` is the line being
gathered; each newline closes a line, and the bytes after the last newline
belong to no line. -/
def linesFrom : Bytes → Bytes → List Bytes
  | _, [] => []
  | cur, c :: cs =>
    if c = '\n' then (cur ++ [c]) :: linesFrom [] cs else linesFrom (cur ++ [c]) cs

/-- The newline-terminated lines of a byte sequence. -/
def completeLines (s : Bytes) : List Bytes := linesFrom [] s

/-- What `os.Open(path)` gives on success: the bytes the file holds, and the
errors (if any) that `file.Stat()` and `file.Seek` will report. -/
structure OpenedFile where
  content : Bytes
  statErr : Option String
  seekErr : Option String

/-- The line printed before the tail loop starts. -/
def tailBanner : Bytes := "Starting log tail... Press Ctrl+C to stop.\n".toList

/-- An observation of `tailLogFile`: `err` is the error returned to the caller
(`none` while the function is still in its loop), `polls` the number of loop
iterations made, `out` what was printed, `file` and `rd` the file contents and
the reader at the end of the observed events. -/
structure TailRun where
  err : Option String
  polls : Nat
  out : List Bytes
  file : Bytes
  rd : Reader
deriving DecidableEq

/-- The function `tailLogFile`; `fs path` is the result of `os.Open(path)`, and
`events` are the events observed once the loop has started. -/
def tailLogFile (fs : String → Except String OpenedFile) (path : String)
    (events : List Event) : TailRun :=
  match fs path with
  | .error e => { err := some e, polls := 0, out := [], file := [], rd := ⟨0, []⟩ }
  | .ok f =>
    match f.statErr with
    | some e => { err := some e, polls := 0, out := [], file := f.content, rd := ⟨0, []⟩ }
    | none =>
      let start := f.content.length
      match f.seekErr with
      | some e => { err := some e, polls := 0, out := [], file := f.content, rd := ⟨0, []⟩ }
      | none =>
        let w := tailLoop ⟨f.content, ⟨⟨start, []⟩, 0, [tailBanner]⟩⟩ events
        { err := none, polls := w.t.polls, out := w.t.out, file := w.file, rd := w.t.rd }

/-- The invariant of a run of `tailLogFile` on a file that only grows: the file
is the content `init` it held at open time followed by the appended bytes `A`;
the descriptor offset lies within the file; `A` splits into the bytes already
consumed and the bytes still to be read (buffered, or in the file from the
descriptor offset on); and the output is the banner followed by lines that each
occur in `A`. -/
def TailInv (init A : Bytes) (w : World) : Prop :=
  w.file = init ++ A
  ∧ w.t.rd.pos ≤ w.file.length
  ∧ (∃ consumed, A = consumed ++ (w.t.rd.buf ++ w.file.drop w.t.rd.pos))
  ∧ (∃ lines, w.t.out = tailBanner :: lines ∧ ∀ l ∈ lines, ∃ pre post, A = pre ++ l ++ post)

/-- The world `w` seen with `init` put in front of the file. -/
def shiftWorld (init : Bytes) (w : World) : World :=
  { file := init ++ w.file,
    t := { rd := ⟨init.length + w.t.rd.pos, w.t.rd.buf⟩, polls := w.t.polls, out := w.t.out } }

/-- An observation of `handleLogs`: whether `askCustomLogPath` was called, what
`handleLogs` itself printed (the prompts of the functions it calls are left
out), and the run of `tailLogFile` (`none` while `handleLogs` is still waiting
for input). -/
structure LogsRun where
  askedCustom : Bool
  printed : List String
  tail : Option TailRun

/-- The function `handleLogs`: `servers` and `customs` are the lines typed at
the two prompts, `stat p` tells whether `os.Stat(p)` succeeds. -/
def handleLogs (goos : String) (stat : String → Bool)
    (fs : String → Except String OpenedFile)
    (servers customs : List String) (events : List Event) : LogsRun :=
  match askServerType servers with
  | none => { askedCustom := false, printed := [], tail := none }
  | some server =>
    let logPath := getLogPath goos server
    let asked := logPath == ""
    let chosen : Option String :=
      if asked then askCustomLogPath stat customs else some logPath
    match chosen with
    | none => { askedCustom := asked, printed := [], tail := none }
    | some logPath =>
      let run := tailLogFile fs logPath events
      let head := "Tailing logs from: " ++ logPath ++ "\n\n"
      match run.err with
      | some e =>
        { askedCustom := asked, printed := [head, "Error tailing log: " ++ e ++ "\n"],
          tail := some run }
      | none => { askedCustom := asked, printed := [head], tail := some run }

/-! ## Go CLI tool/cli.go : configuration -/

/-- The struct `Config`. -/
structure Config where
  OS : String
  ServerName : String
  LogPath : String
deriving DecidableEq

/-- The map `linuxLogs`. -/
def linuxLogs : List (String × String) :=
  [ ("Apache", "/var/log/apache2/access.log"),
    ("Nginx", "/var/log/nginx/access.log"),
    ("MySQL", "/var/log/mysql/error.log"),
    ("PostgreSQL", "/var/log/postgresql/postgresql.log"),
    ("Docker", "/var/log/docker.log"),
    ("SSH", "/var/log/auth.log"),
    ("Syslog", "/var/log/syslog"),
    ("Kubernetes", "/var/log/kubelet.log"),
    ("Cron", "/var/log/cron.log"),
    ("Systemd", "/var/log/journal/syslog") ]

/-- The map `windowsLogs`. -/
def windowsLogs : List (String × String) :=
  [ ("IIS", "C:\\inetpub\\logs\\LogFiles\\W3SVC1\\u_exYYMMDD.log"),
    ("System", "C:\\Windows\\System32\\winevt\\Logs\\System.evtx"),
    ("Application", "C:\\Windows\\System32\\winevt\\Logs\\Application.evtx"),
    ("Security", "C:\\Windows\\System32\\winevt\\Logs\\Security.evtx"),
    ("HTTPERR", "C:\\Windows\\System32\\LogFiles\\HTTPERR\\httperr1.log"),
    ("DNS", "C:\\Windows\\System32\\Dns\\dns.log"),
    ("DHCP", "C:\\Windows\\System32\\Dhcp\\DhcpSrvLog.txt"),
    ("Print", "C:\\Windows\\System32\\spool\\PRINTERS"),
    ("Firewall", "C:\\Windows\\System32\\LogFiles\\Firewall\\pfirewall.log"),
    ("WindowsUpdate", "C:\\Windows\\WindowsUpdate.log") ]

/-- Indexing a Go `map[string]string`: the zero value `""` for a missing key. -/
def mapIndex (m : List (String × String)) (key : String) : String :=
  (m.lookup key).getD ""

/-- The value of a run of decimal digits, `none` if a character is not a digit
(the digit loop of `strconv.Atoi`). -/
def parseDigits : List Char → Nat → Option Nat
  | [], n => some n
  | ch :: rest, n =>
    if '0' ≤ ch ∧ ch ≤ '9' then parseDigits rest (n * 10 + (ch.toNat - '0'.toNat))
    else none

/-- The library function `strconv.Atoi` on a 64-bit platform: an optional sign,
then at least one decimal digit and nothing else; a value outside the range of
`int` is an error.  `none` stands for `err != nil`. -/
def Atoi (s : String) : Option Int :=
  match s.toList with
  | [] => none
  | c :: cs =>
    let neg := c = '-'
    let digits := if c = '-' ∨ c = '+' then cs else c :: cs
    if digits = [] then none
    else
      match parseDigits digits 0 with
      | none => none
      | some n =>
        if neg then (if n ≤ 2 ^ 63 then some (-(n : Int)) else none)
        else (if n < 2 ^ 63 then some (n : Int) else none)

/-- The listing loop of `firstTimeSetup` after some entries: the next number to
print, the options gathered and the lines printed. -/
structure Menu where
  index : Nat
  options : List String
  printed : List String
deriving DecidableEq

/-- One iteration of the listing loop: print `index) name - path`, append the
path to `options`, increment `index`. -/
def offer (m : Menu) (entry : String × String) : Menu :=
  { index := m.index + 1,
    options := m.options ++ [entry.2],
    printed := m.printed ++
      [toString m.index ++ ") " ++ entry.1 ++ " - " ++ entry.2 ++ "\n"] }

/-- The listing loop over the entries in the order `range` visits them. -/
def offerAll (entries : List (String × String)) : Menu :=
  entries.foldl offer ⟨1, [], []⟩

/-- The path `firstTimeSetup` uses after an invalid choice. -/
def defaultPath (osType : String) : String :=
  if osType = "windows" then mapIndex windowsLogs "HTTPERR" else mapIndex linuxLogs "Syslog"

/-- The branch of `firstTimeSetup` taken on a non-empty choice: the selected
path, where `none` stands for an index out of range at `options[numChoice-1]`. -/
def choosePath (osType : String) (options : List String) (choice : String) :
    Option String :=
  match Atoi choice with
  | some numChoice =>
    if numChoice ≥ 1 ∧ numChoice ≤ (options.length : Int) then
      options[(numChoice - 1).toNat]?
    else some (defaultPath osType)
  | none => some (defaultPath osType)

/-- An observation of `firstTimeSetup`: the lines printed, whether the custom
path was asked for, and the configuration returned (`none` if the function
stopped on an index out of range). -/
structure Setup where
  printed : List String
  askedCustom : Bool
  config : Option Config
deriving DecidableEq

/-- The function `firstTimeSetup`.  `osType` is `runtime.GOOS`; `order m` is the
order in which `range` visits the entries of the map `m`; `serverName`, `choice`
and `customPath` are the lines read from standard input, already trimmed.  (The
configuration is also written to `snsms_config.json`.) -/
def firstTimeSetup (osType : String)
    (order : List (String × String) → List (String × String))
    (serverName choice customPath : String) : Setup :=
  let intro :=
    ["🔧 First-time setup:\n", "Detected OS: " ++ osType ++ "\n",
     "Enter Server Name: ", "Available Log File Paths:\n"]
  let menu :=
    if osType = "windows" then offerAll (order windowsLogs) else offerAll (order linuxLogs)
  let ask :=
    "Choose a number for a predefined log path, or press Enter to enter a custom path: "
  let saved := "✅ Configuration saved to snsms_config.json\n"
  if choice = "" then
    { printed := intro ++ menu.printed ++ [ask, "Enter custom Log File Path: ", saved],
      askedCustom := true,
      config := some { OS := osType, ServerName := serverName, LogPath := customPath } }
  else
    let valid : Bool :=
      match Atoi choice with
      | some numChoice => numChoice ≥ 1 ∧ numChoice ≤ (menu.options.length : Int)
      | none => false
    let said := if valid then [] else ["❌ Invalid choice. Using default.\n"]
    match choosePath osType menu.options choice with
    | none =>
      { printed := intro ++ menu.printed ++ [ask], askedCustom := false, config := none }
    | some selectedPath =>
      { printed := intro ++ menu.printed ++ [ask] ++ said ++ [saved],
        askedCustom := false,
        config := some { OS := osType, ServerName := serverName, LogPath := selectedPath } }

/-! ## Go CLI tool/cli.go : live TCP server -/

/-- What `cmd.CombinedOutput()` gives: the combined output of the command, and
`err.Error()` when the command failed. -/
structure CmdOutcome where
  output : String
  err : Option String
deriving DecidableEq

/-- The host on which commands run: its own state, and the record of the
commands executed so far (one argument vector per command). -/
structure Sys (σ : Type) where
  st : σ
  executed : List (List String)

/-- Running one command on the host; `oracle` is the operating system. -/
def combinedOutput {σ : Type} (oracle : σ → List String → CmdOutcome × σ)
    (argv : List String) (w : Sys σ) : CmdOutcome × Sys σ :=
  let r := oracle w.st argv
  (r.1, { st := r.2, executed := w.executed ++ [argv] })

/-- The command line built by `runAndCapture`: `cmd /C command` on Windows,
`bash -c command` elsewhere. -/
def shellArgv (goos command : String) : List String :=
  if goos = "windows" then ["cmd", "/C", command] else ["bash", "-c", command]

/-- The function `runAndCapture`; `goos` is `runtime.GOOS`. -/
def runAndCapture {σ : Type} (goos : String) (oracle : σ → List String → CmdOutcome × σ)
    (command : String) (w : Sys σ) : String × Sys σ :=
  let argv := shellArgv goos command
  let r := combinedOutput oracle argv w
  match r.1.err with
  | some e => ("Error: " ++ e ++ "\n", r.2)
  | none => (r.1.output ++ "\n", r.2)

/-- An observation of `handleConnection`: the text passed to `conn.Write`,
whether the connection was closed, and the host afterwards. -/
structure ConnRun (σ : Type) where
  written : String
  closed : Bool
  sys : Sys σ

/-- The first line of every response. -/
def liveHeader : String := "---- LIVE SYSTEM STATS ----\n"

/-- The function `handleConnection`. -/
def handleConnection {σ : Type} (goos : String)
    (oracle : σ → List String → CmdOutcome × σ) (config : Config) (w : Sys σ) :
    ConnRun σ :=
  let result := "" ++ liveHeader
  if config.OS = "windows" then
    let c := runAndCapture goos oracle "wmic cpu get loadpercentage" w
    let result := result ++ c.1
    let m := runAndCapture goos oracle
      "wmic os get FreePhysicalMemory,TotalVisibleMemorySize" c.2
    let result := result ++ m.1
    let d := runAndCapture goos oracle "wmic logicaldisk get size,freespace,caption" m.2
    let result := result ++ d.1
    let l := runAndCapture goos oracle
      ("powershell -Command \"Get-Content '" ++ config.LogPath ++ "' -Tail 10\"") d.2
    let result := result ++ l.1
    { written := result, closed := true, sys := l.2 }
  else
    let c := runAndCapture goos oracle "top -b -n1 | head -n 5" w
    let result := result ++ c.1
    let m := runAndCapture goos oracle "free -h" c.2
    let result := result ++ m.1
    let d := runAndCapture goos oracle "df -h" m.2
    let result := result ++ d.1
    let l := runAndCapture goos oracle ("tail -n 10 " ++ config.LogPath) d.2
    let result := result ++ l.1
    { written := result, closed := true, sys := l.2 }

/-- The four commands `handleConnection` runs, in the order it runs them:
CPU, memory, disk, then the tail of the log. -/
def collectionCommands (config : Config) : List String :=
  if config.OS = "windows" then
    [ "wmic cpu get loadpercentage",
      "wmic os get FreePhysicalMemory,TotalVisibleMemorySize",
      "wmic logicaldisk get size,freespace,caption",
      "powershell -Command \"Get-Content '" ++ config.LogPath ++ "' -Tail 10\"" ]
  else
    [ "top -b -n1 | head -n 5", "free -h", "df -h", "tail -n 10 " ++ config.LogPath ]

/-- The sections obtained by running `runAndCapture` on a list of commands, one
after the other. -/
def captureAll {σ : Type} (goos : String) (oracle : σ → List String → CmdOutcome × σ) :
    List String → Sys σ → List String × Sys σ
  | [], w => ([], w)
  | command :: rest, w =>
    let r := runAndCapture goos oracle command w
    let rs := captureAll goos oracle rest r.2
    (r.1 :: rs.1, rs.2)

/-- One result of `ln.Accept()`. -/
inductive Accepted (Conn : Type) where
  | conn (c : Conn)
  | error (e : String)

/-- The connections among a sequence of accept results, in order. -/
def connsOf {Conn : Type} : List (Accepted Conn) → List Conn
  | [] => []
  | .conn c :: rest => c :: connsOf rest
  | .error _ :: rest => connsOf rest

/-- An observation of `startLiveServer`: the lines printed, the handlers
started with `go handleConnection(conn, config)` in the order they were
started, and whether the function has returned. -/
structure ServerRun (Conn : Type) where
  printed : List String
  spawned : List (Conn × Config)
  returned : Bool

/-- The accept loop of `startLiveServer` over a finite sequence of accept
results: an error is skipped with `continue`, a connection gets a handler. -/
def acceptLoop {Conn : Type} (config : Config) :
    List (Accepted Conn) → ServerRun Conn → ServerRun Conn
  | [], s => s
  | .error _ :: rest, s => acceptLoop config rest s
  | .conn c :: rest, s =>
    acceptLoop config rest { s with spawned := s.spawned ++ [(c, config)] }

/-- The function `startLiveServer`; `listen` is the result of `net.Listen`. -/
def startLiveServer {Conn : Type} (listen : Except String Unit) (config : Config)
    (accepts : List (Accepted Conn)) : ServerRun Conn :=
  match listen with
  | .error e =>
    { printed := ["Failed to start server: " ++ e ++ "\n"], spawned := [], returned := true }
  | .ok _ =>
    acceptLoop config accepts
      { printed := ["🌐 Listening for live requests on port 9090\n"],
        spawned := [], returned := false }



/-! ## Properties of `getLogPath` and `handleLogs` -/

theorem askServerType_accepted {servers : List String} {server : String}
    (h : askServerType servers = some server) : serverTypeAccepted server = true := by
  induction servers with
  | nil => simp [askServerType] at h
  | cons input rest ih =>
    unfold askServerType at h
    by_cases hacc : serverTypeAccepted input = true
    · rw [if_pos hacc] at h
      cases h
      exact hacc
    · rw [if_neg hacc] at h
      exact ih h

theorem lookup_defaultLogPaths (server : String) :
    (server = "nginx" ∧ defaultLogPaths.lookup server =
        some [("linux", "/var/log/nginx/access.log"), ("windows", "C:\\nginx\\logs\\access.log")])
    ∨ (server = "apache" ∧ defaultLogPaths.lookup server =
        some [("linux", "/var/log/apache2/access.log"),
              ("windows", "C:\\Apache24\\logs\\access.log")])
    ∨ (server ≠ "nginx" ∧ server ≠ "apache" ∧ defaultLogPaths.lookup server = none) := by
  by_cases h1 : server = "nginx"
  · left
    subst h1
    exact ⟨rfl, by decide⟩
  · by_cases h2 : server = "apache"
    · right; left
      subst h2
      exact ⟨rfl, by decide⟩
    · right; right
      refine ⟨h1, h2, ?_⟩
      have e1 : (server == "nginx") = false := by simpa using h1
      have e2 : (server == "apache") = false := by simpa using h2
      simp only [defaultLogPaths, List.lookup, e1, e2]

theorem getOsType_cases (goos : String) :
    getOsType goos = "linux" ∨ getOsType goos = "windows" := by
  unfold getOsType
  by_cases h : goos = "windows"
  · right; simp [h]
  · left; simp [h]

theorem getLogPath_of_lookup {goos server : String} {paths : List (String × String)}
    (hc : server ≠ "custom") (hl : defaultLogPaths.lookup server = some paths) :
    getLogPath goos server = ((paths.lookup (getOsType goos)).getD "") := by
  unfold getLogPath
  rw [if_neg hc]
  simp only [hl]
  cases paths.lookup (getOsType goos) <;> rfl

theorem getLogPath_eq_empty_iff (goos server : String) :
    getLogPath goos server = "" ↔
      (server = "custom" ∨ defaultLogPaths.lookup server = none) := by
  by_cases hc : server = "custom"
  · simp [getLogPath, hc]
  · rcases lookup_defaultLogPaths server with ⟨_, hl⟩ | ⟨_, hl⟩ | ⟨_, _, hl⟩
    · rw [getLogPath_of_lookup hc hl, hl]
      rcases getOsType_cases goos with ho | ho
      · rw [ho]
        simp only [hc, false_or]
        decide
      · rw [ho]
        simp only [hc, false_or]
        decide
    · rw [getLogPath_of_lookup hc hl, hl]
      rcases getOsType_cases goos with ho | ho
      · rw [ho]
        simp only [hc, false_or]
        decide
      · rw [ho]
        simp only [hc, false_or]
        decide
    · simp [getLogPath, hc, hl]

/-- C10: `getLogPath` returns `""` exactly when the server is `"custom"` or is
not a key of `defaultLogPaths`; for a key other than `"custom"` it returns the
non-empty entry `defaultLogPaths[server][osType]`, `osType` being `"linux"` or
`"windows"`; and for every value `askServerType` returns, `handleLogs` asks for
a custom path if and only if that value is `"custom"`. -/
theorem getLogPath_empty_iff_no_default (goos server : String) :
    (getOsType goos = "linux" ∨ getOsType goos = "windows")
    ∧ (getLogPath goos server = "" ↔
        (server = "custom" ∨ defaultLogPaths.lookup server = none))
    ∧ (∀ paths, server ≠ "custom" → defaultLogPaths.lookup server = some paths →
        paths.lookup (getOsType goos) = some (getLogPath goos server)
          ∧ getLogPath goos server ≠ "")
    ∧ (∀ stat fs servers customs events, askServerType servers = some server →
        ((handleLogs goos stat fs servers customs events).askedCustom = true ↔
          server = "custom")) := by
  refine ⟨getOsType_cases goos, getLogPath_eq_empty_iff goos server, ?_, ?_⟩
  · intro paths hc hp
    rcases lookup_defaultLogPaths server with ⟨_, hl⟩ | ⟨_, hl⟩ | ⟨_, _, hl⟩
    · rw [getLogPath_of_lookup hc hl]
      rw [hl] at hp
      cases hp
      rcases getOsType_cases goos with ho | ho <;> rw [ho] <;> decide
    · rw [getLogPath_of_lookup hc hl]
      rw [hl] at hp
      cases hp
      rcases getOsType_cases goos with ho | ho <;> rw [ho] <;> decide
    · rw [hl] at hp
      cases hp
  · intro stat fs servers customs events hs
    have hacc := askServerType_accepted hs
    have hasked : (handleLogs goos stat fs servers customs events).askedCustom
        = (getLogPath goos server == "") := by
      unfold handleLogs
      simp only [hs]
      split
      · rfl
      · split <;> rfl
    rw [hasked]
    constructor
    · intro h
      have h' : getLogPath goos server = "" := by simpa using h
      rcases (getLogPath_eq_empty_iff goos server).1 h' with hc | hn
      · exact hc
      · unfold serverTypeAccepted at hacc
        rw [hn] at hacc
        simpa using hacc
    · intro hc
      have : getLogPath goos server = "" := (getLogPath_eq_empty_iff goos server).2 (Or.inl hc)
      simp [this]

/-- Witness for C10 at the server `"nginx"` on Linux, typed after a rejected line. -/
theorem getLogPath_empty_iff_no_default_witness :
    getLogPath "linux" "nginx" = "/var/log/nginx/access.log"
    ∧ getLogPath "linux" "nginx" ≠ ""
    ∧ ((handleLogs "linux" (fun _ => true) (fun _ => .error "no such file")
          ["iis", "nginx"] [] []).askedCustom = true ↔ "nginx" = "custom") := by
  have h := getLogPath_empty_iff_no_default "linux" "nginx"
  have h3 := h.2.2.1 [("linux", "/var/log/nginx/access.log"),
    ("windows", "C:\\nginx\\logs\\access.log")] (by decide) (by decide)
  refine ⟨by decide, h3.2, ?_⟩
  exact h.2.2.2 (fun _ => true) (fun _ => .error "no such file") ["iis", "nginx"] [] []
    (by decide)



/-! ## Properties of `firstTimeSetup` -/

theorem foldl_offer (entries : List (String × String)) (m : Menu) :
    entries.foldl offer m =
      { index := m.index + entries.length,
        options := m.options ++ entries.map Prod.snd,
        printed := m.printed ++ (entries.enumFrom m.index).map
          (fun p => toString p.1 ++ ") " ++ p.2.1 ++ " - " ++ p.2.2 ++ "\n") } := by
  induction entries generalizing m with
  | nil => simp
  | cons e rest ih =>
    rw [List.foldl_cons, ih]
    simp [offer, Nat.add_assoc, Nat.add_comm 1]

theorem offerAll_options (entries : List (String × String)) :
    (offerAll entries).options = entries.map Prod.snd := by
  simp [offerAll, foldl_offer]

theorem offerAll_printed (entries : List (String × String)) :
    (offerAll entries).printed = (entries.enumFrom 1).map
      (fun p => toString p.1 ++ ") " ++ p.2.1 ++ " - " ++ p.2.2 ++ "\n") := by
  simp [offerAll, foldl_offer]

theorem defaultPath_eq (osType : String) :
    defaultPath osType =
      if osType = "windows" then "C:\\Windows\\System32\\LogFiles\\HTTPERR\\httperr1.log"
      else "/var/log/syslog" := by
  unfold defaultPath
  split
  · decide
  · decide

theorem choosePath_valid (osType : String) (options : List String) (choice : String)
    (n : Int) (hn : Atoi choice = some n) (h1 : 1 ≤ n) (h2 : n ≤ (options.length : Int)) :
    choosePath osType options choice = options[(n - 1).toNat]?
      ∧ (n - 1).toNat < options.length := by
  constructor
  · unfold choosePath
    simp only [hn]
    rw [if_pos ⟨h1, h2⟩]
  · omega

theorem choosePath_invalid (osType : String) (options : List String) (choice : String)
    (h : ∀ n : Int, Atoi choice = some n → ¬ (1 ≤ n ∧ n ≤ (options.length : Int))) :
    choosePath osType options choice = some (defaultPath osType) := by
  unfold choosePath
  cases hn : Atoi choice with
  | none => rfl
  | some n =>
    simp only
    rw [if_neg]
    exact h n hn

theorem firstTimeSetup_config (osType : String)
    (order : List (String × String) → List (String × String))
    (serverName choice customPath : String) (hne : choice ≠ "") :
    (firstTimeSetup osType order serverName choice customPath).config =
      (choosePath osType
        (offerAll (order (if osType = "windows" then windowsLogs else linuxLogs))).options
        choice).map (fun p => { OS := osType, ServerName := serverName, LogPath := p }) := by
  unfold firstTimeSetup
  simp only [if_neg hne]
  by_cases hw : osType = "windows"
  · simp only [if_pos hw]
    split <;> rename_i h <;> simp [h]
  · simp only [if_neg hw]
    split <;> rename_i h <;> simp [h]

theorem firstTimeSetup_printed_menu (osType : String)
    (order : List (String × String) → List (String × String))
    (serverName choice customPath : String) (line : String)
    (h : line ∈ (offerAll (order (if osType = "windows" then windowsLogs else linuxLogs))).printed) :
    line ∈ (firstTimeSetup osType order serverName choice customPath).printed := by
  unfold firstTimeSetup
  by_cases hw : osType = "windows"
  · simp only [if_pos hw] at h ⊢
    split
    · simp [h]
    · split <;> simp [h]
  · simp only [if_neg hw] at h ⊢
    split
    · simp [h]
    · split <;> simp [h]

/-- C9: in `firstTimeSetup`, for a non-empty trimmed choice: (i) if the choice
parses (`strconv.Atoi`) as an integer `n` with `1 ≤ n ≤ len(options)`, the
selected path is `options[n-1]`, the path of the entry that was printed as
line `n) name - path`; (ii) otherwise the selected path is the default, the
`HTTPERR` path on Windows and the `Syslog` path elsewhere; and in every case a
configuration is returned: the index `options[n-1]` is never out of range. -/
theorem firstTimeSetup_choice_total (osType : String)
    (order : List (String × String) → List (String × String))
    (serverName choice customPath : String) (hne : choice ≠ "") :
    (∀ n : Int, Atoi choice = some n → 1 ≤ n →
      n ≤ ((offerAll (order (if osType = "windows" then windowsLogs else linuxLogs))).options.length : Int) →
      ∃ name path,
        (order (if osType = "windows" then windowsLogs else linuxLogs))[(n - 1).toNat]?
            = some (name, path)
        ∧ (offerAll (order (if osType = "windows" then windowsLogs else linuxLogs))).options[(n - 1).toNat]?
            = some path
        ∧ (offerAll (order (if osType = "windows" then windowsLogs else linuxLogs))).printed[(n - 1).toNat]?
            = some (toString n.toNat ++ ") " ++ name ++ " - " ++ path ++ "\n")
        ∧ (toString n.toNat ++ ") " ++ name ++ " - " ++ path ++ "\n")
            ∈ (firstTimeSetup osType order serverName choice customPath).printed
        ∧ (firstTimeSetup osType order serverName choice customPath).config
            = some { OS := osType, ServerName := serverName, LogPath := path })
    ∧ ((∀ n : Int, Atoi choice = some n → ¬ (1 ≤ n ∧
          n ≤ ((offerAll (order (if osType = "windows" then windowsLogs else linuxLogs))).options.length : Int))) →
        (firstTimeSetup osType order serverName choice customPath).config
          = some { OS := osType, ServerName := serverName,
                   LogPath := if osType = "windows"
                     then "C:\\Windows\\System32\\LogFiles\\HTTPERR\\httperr1.log"
                     else "/var/log/syslog" })
    ∧ (firstTimeSetup osType order serverName choice customPath).config ≠ none := by
  have hcfg := firstTimeSetup_config osType order serverName choice customPath hne
  generalize hE : order (if osType = "windows" then windowsLogs else linuxLogs) = entries at hcfg ⊢
  have key : ∀ n : Int, Atoi choice = some n → 1 ≤ n →
      n ≤ ((offerAll entries).options.length : Int) →
      ∃ name path, entries[(n - 1).toNat]? = some (name, path)
        ∧ (offerAll entries).options[(n - 1).toNat]? = some path
        ∧ (offerAll entries).printed[(n - 1).toNat]?
            = some (toString n.toNat ++ ") " ++ name ++ " - " ++ path ++ "\n")
        ∧ choosePath osType (offerAll entries).options choice = some path := by
    intro n hn h1 h2
    obtain ⟨hch, hlt⟩ := choosePath_valid osType (offerAll entries).options choice n hn h1 h2
    have hlen : (offerAll entries).options.length = entries.length := by
      simp [offerAll_options]
    have hlt' : (n - 1).toNat < entries.length := hlen ▸ hlt
    have hget : entries[(n - 1).toNat]? = some entries[(n - 1).toNat] :=
      List.getElem?_eq_getElem hlt'
    refine ⟨entries[(n - 1).toNat].1, entries[(n - 1).toNat].2, hget, ?_, ?_, ?_⟩
    · rw [offerAll_options, List.getElem?_map, hget]; rfl
    · rw [offerAll_printed, List.getElem?_map, List.getElem?_enumFrom, hget]
      have : 1 + (n - 1).toNat = n.toNat := by omega
      simp only [Option.map_some', this]
    · rw [hch, offerAll_options, List.getElem?_map, hget]; rfl
  refine ⟨?_, ?_, ?_⟩
  · intro n hn h1 h2
    obtain ⟨name, path, he, ho, hp, hc⟩ := key n hn h1 h2
    refine ⟨name, path, he, ho, hp, ?_, ?_⟩
    · apply firstTimeSetup_printed_menu
      rw [hE]
      exact List.getElem?_mem hp
    · rw [hcfg, hc]; rfl
  · intro h
    rw [hcfg, choosePath_invalid osType _ choice h, defaultPath_eq]; rfl
  · rw [hcfg]
    by_cases h : ∃ n : Int, Atoi choice = some n ∧ 1 ≤ n ∧
        n ≤ ((offerAll entries).options.length : Int)
    · obtain ⟨n, hn, h1, h2⟩ := h
      obtain ⟨name, path, he, ho, hp, hc⟩ := key n hn h1 h2
      simp [hc]
    · have h' : ∀ n : Int, Atoi choice = some n → ¬ (1 ≤ n ∧
          n ≤ ((offerAll entries).options.length : Int)) := by
        intro n hn hb
        exact h ⟨n, hn, hb⟩
      simp [choosePath_invalid osType _ choice h']

/-- Witness for C9: on Linux, with the entries visited in the order of the
literal, the choice `"+2"` parses as 2 and selects the Nginx log. -/
theorem firstTimeSetup_choice_total_witness :
    "+2" ≠ "" ∧ Atoi "+2" = some 2
    ∧ (firstTimeSetup "linux" id "web" "+2" "").config
        = some { OS := "linux", ServerName := "web", LogPath := "/var/log/nginx/access.log" } := by
  refine ⟨by decide, by decide, ?_⟩
  obtain ⟨name, path, he, _, _, _, hc⟩ :=
    (firstTimeSetup_choice_total "linux" id "web" "+2" "" (by decide)).1 2
      (by decide) (by decide) (by decide)
  have h2 : (id (if "linux" = "windows" then windowsLogs else linuxLogs))[((2 : Int) - 1).toNat]?
      = some ("Nginx", "/var/log/nginx/access.log") := by decide
  rw [h2] at he
  cases he
  exact hc



/-! ## Properties of the live TCP server -/

theorem acceptLoop_eq {Conn : Type} (config : Config) (accepts : List (Accepted Conn))
    (s : ServerRun Conn) :
    acceptLoop config accepts s =
      { s with spawned := s.spawned ++ (connsOf accepts).map (fun c => (c, config)) } := by
  induction accepts generalizing s with
  | nil => simp [acceptLoop, connsOf]
  | cons a rest ih =>
    cases a with
    | conn c => simp [acceptLoop, connsOf, ih]
    | error e => simp [acceptLoop, connsOf, ih]

theorem connsOf_append {Conn : Type} (xs ys : List (Accepted Conn)) :
    connsOf (xs ++ ys) = connsOf xs ++ connsOf ys := by
  induction xs with
  | nil => rfl
  | cons a rest ih => cases a <;> simp [connsOf, ih]

theorem connsOf_errors {Conn : Type} (errs : List String) :
    connsOf (errs.map (Accepted.error : String → Accepted Conn)) = [] := by
  induction errs with
  | nil => rfl
  | cons e rest ih => simpa [connsOf] using ih

/-- C7: once the listener is open, the accept loop of `startLiveServer` runs
through every finite sequence of accept results without returning, and starts
one `handleConnection` for each accepted connection, in accept order, each
with the server's config; in particular a connection accepted after any
number of accept errors still gets its handler. -/
theorem startLiveServer_survives_accept_errors {Conn : Type} (ln : Unit) (config : Config)
    (accepts : List (Accepted Conn)) :
    (startLiveServer (.ok ln) config accepts).returned = false
    ∧ (startLiveServer (.ok ln) config accepts).spawned
        = (connsOf accepts).map (fun c => (c, config))
    ∧ (∀ (errs : List String) (c : Conn) (later : List (Accepted Conn)),
        (startLiveServer (.ok ln) config
            (errs.map Accepted.error ++ Accepted.conn c :: later)).spawned
          = (c, config) :: (connsOf later).map (fun c => (c, config))) := by
  have h : ∀ accepts : List (Accepted Conn),
      startLiveServer (.ok ln) config accepts =
        { printed := ["🌐 Listening for live requests on port 9090\n"],
          spawned := (connsOf accepts).map (fun c => (c, config)), returned := false } := by
    intro accepts
    simp [startLiveServer, acceptLoop_eq]
  refine ⟨by rw [h], by rw [h], ?_⟩
  intro errs c later
  rw [h, connsOf_append, connsOf_errors]
  simp [connsOf]

theorem runAndCapture_executed {σ : Type} (goos : String)
    (oracle : σ → List String → CmdOutcome × σ) (command : String) (w : Sys σ) :
    (runAndCapture goos oracle command w).2.executed
      = w.executed ++ [shellArgv goos command] := by
  unfold runAndCapture
  dsimp only
  split <;> simp [combinedOutput]

theorem runAndCapture_failure {σ : Type} (goos : String)
    (oracle : σ → List String → CmdOutcome × σ) (command : String) (w : Sys σ) (e : String)
    (h : (oracle w.st (shellArgv goos command)).1.err = some e) :
    (runAndCapture goos oracle command w).1 = "Error: " ++ e ++ "\n" := by
  unfold runAndCapture
  simp only [combinedOutput, h]

theorem runAndCapture_ends_newline {σ : Type} (goos : String)
    (oracle : σ → List String → CmdOutcome × σ) (command : String) (w : Sys σ) :
    ∃ body, (runAndCapture goos oracle command w).1 = body ++ "\n" := by
  unfold runAndCapture
  dsimp only
  split
  · exact ⟨_, rfl⟩
  · exact ⟨_, rfl⟩

theorem append_newline_ne_empty (body : String) : body ++ "\n" ≠ "" := by
  intro h
  have := congrArg String.length h
  simp only [String.length_append] at this
  have h1 : "\n".length = 1 := by decide
  have h0 : "".length = 0 := by decide
  omega

theorem captureAll_executed {σ : Type} (goos : String)
    (oracle : σ → List String → CmdOutcome × σ) (commands : List String) (w : Sys σ) :
    (captureAll goos oracle commands w).2.executed
      = w.executed ++ commands.map (shellArgv goos) := by
  induction commands generalizing w with
  | nil => simp [captureAll]
  | cons c rest ih => simp [captureAll, ih, runAndCapture_executed]

theorem captureAll_length {σ : Type} (goos : String)
    (oracle : σ → List String → CmdOutcome × σ) (commands : List String) (w : Sys σ) :
    (captureAll goos oracle commands w).1.length = commands.length := by
  induction commands generalizing w with
  | nil => simp [captureAll]
  | cons c rest ih => simp [captureAll, ih]

theorem captureAll_sections {σ : Type} (goos : String)
    (oracle : σ → List String → CmdOutcome × σ) (commands : List String) (w : Sys σ) :
    ∀ s ∈ (captureAll goos oracle commands w).1, ∃ body, s = body ++ "\n" := by
  induction commands generalizing w with
  | nil => simp [captureAll]
  | cons c rest ih =>
    intro s hs
    simp only [captureAll, List.mem_cons] at hs
    rcases hs with hs | hs
    · rw [hs]
      exact runAndCapture_ends_newline goos oracle c w
    · exact ih _ s hs

theorem handleConnection_eq {σ : Type} (goos : String)
    (oracle : σ → List String → CmdOutcome × σ) (config : Config) (w : Sys σ) :
    (handleConnection goos oracle config w).written
        = liveHeader ++ String.join (captureAll goos oracle (collectionCommands config) w).1
    ∧ (handleConnection goos oracle config w).sys
        = (captureAll goos oracle (collectionCommands config) w).2 := by
  unfold handleConnection collectionCommands
  by_cases hw : config.OS = "windows"
  · simp only [if_pos hw, captureAll, String.join, List.foldl]
    simp [String.append_assoc]
  · simp only [if_neg hw, captureAll, String.join, List.foldl]
    simp [String.append_assoc]

theorem captureAll_append {σ : Type} (goos : String)
    (oracle : σ → List String → CmdOutcome × σ) (pre post : List String) (w : Sys σ) :
    captureAll goos oracle (pre ++ post) w =
      ((captureAll goos oracle pre w).1
          ++ (captureAll goos oracle post (captureAll goos oracle pre w).2).1,
        (captureAll goos oracle post (captureAll goos oracle pre w).2).2) := by
  induction pre generalizing w with
  | nil => simp [captureAll]
  | cons c rest ih => simp [captureAll, ih]

theorem join_append (xs ys : List String) :
    String.join (xs ++ ys) = String.join xs ++ String.join ys := by
  apply String.ext
  simp [String.join_eq]

theorem join_cons (x : String) (xs : List String) :
    String.join (x :: xs) = x ++ String.join xs := by
  apply String.ext
  simp [String.join_eq]

theorem collectionCommands_length (config : Config) :
    (collectionCommands config).length = 4 := by
  unfold collectionCommands
  split <;> rfl

/-- C4 (counterexample): on a Linux host, serving one connection executes four
collection commands, not zero. -/
theorem handleConnection_no_collection_counterexample :
    (handleConnection "linux" (fun (_ : Unit) _ => (⟨"", none⟩, ()))
        ⟨"linux", "web", "/var/log/syslog"⟩ ⟨(), []⟩).sys.executed
      = [ ["bash", "-c", "top -b -n1 | head -n 5"], ["bash", "-c", "free -h"],
          ["bash", "-c", "df -h"], ["bash", "-c", "tail -n 10 /var/log/syslog"] ]
    ∧ ¬ ((handleConnection "linux" (fun (_ : Unit) _ => (⟨"", none⟩, ()))
        ⟨"linux", "web", "/var/log/syslog"⟩ ⟨(), []⟩).sys.executed.length = 0) := by
  decide

/-- C4 (amended): serving a TCP connection runs the collection itself: for
every config and every connection, `handleConnection` executes exactly four
collection commands (CPU, memory, disk, log tail, chosen by `config.OS`), in
that order, and writes the header followed by the output captured from those
four executions. -/
theorem handleConnection_runs_four_commands {σ : Type} (goos : String)
    (oracle : σ → List String → CmdOutcome × σ) (config : Config) (w : Sys σ) :
    (handleConnection goos oracle config w).sys.executed
        = w.executed ++ (collectionCommands config).map (shellArgv goos)
    ∧ ((collectionCommands config).map (shellArgv goos)).length = 4
    ∧ (handleConnection goos oracle config w).written
        = liveHeader ++ String.join (captureAll goos oracle (collectionCommands config) w).1 := by
  obtain ⟨hw, hs⟩ := handleConnection_eq goos oracle config w
  refine ⟨?_, ?_, hw⟩
  · rw [hs, captureAll_executed]
  · rw [List.length_map, collectionCommands_length]

theorem runAndCapture_spec {σ : Type} (goos : String)
    (oracle : σ → List String → CmdOutcome × σ) (command : String) (w : Sys σ) :
    (runAndCapture goos oracle command w).2
        = { st := (oracle w.st (shellArgv goos command)).2,
            executed := w.executed ++ [shellArgv goos command] }
    ∧ ((oracle w.st (shellArgv goos command)).1.err = none →
        (runAndCapture goos oracle command w).1
          = (oracle w.st (shellArgv goos command)).1.output ++ "\n")
    ∧ (∀ e, (oracle w.st (shellArgv goos command)).1.err = some e →
        (runAndCapture goos oracle command w).1 = "Error: " ++ e ++ "\n") := by
  unfold runAndCapture
  dsimp only [combinedOutput]
  cases herr : (oracle w.st (shellArgv goos command)).1.err with
  | none =>
    refine ⟨rfl, fun _ => rfl, ?_⟩
    intro e he
    cases he
  | some e0 =>
    refine ⟨rfl, ?_, ?_⟩
    · intro he
      cases he
    · intro e he
      cases he
      rfl

/-- Four commands captured one after the other: each section is decided by the
outcome the host gives for that command, on the host as the previous command
left it. -/
theorem runAndCapture_chain {σ : Type} (goos : String)
    (oracle : σ → List String → CmdOutcome × σ) (c1 c2 c3 c4 : String) (w : Sys σ) :
    ∃ o1 o2 o3 o4 : CmdOutcome × σ,
      o1 = oracle w.st (shellArgv goos c1)
      ∧ o2 = oracle o1.2 (shellArgv goos c2)
      ∧ o3 = oracle o2.2 (shellArgv goos c3)
      ∧ o4 = oracle o3.2 (shellArgv goos c4)
      ∧ (o1.1.err = none → (runAndCapture goos oracle c1 w).1 = o1.1.output ++ "\n")
      ∧ (∀ e, o1.1.err = some e → (runAndCapture goos oracle c1 w).1 = "Error: " ++ e ++ "\n")
      ∧ (o2.1.err = none →
          (runAndCapture goos oracle c2 (runAndCapture goos oracle c1 w).2).1
            = o2.1.output ++ "\n")
      ∧ (∀ e, o2.1.err = some e →
          (runAndCapture goos oracle c2 (runAndCapture goos oracle c1 w).2).1
            = "Error: " ++ e ++ "\n")
      ∧ (o3.1.err = none →
          (runAndCapture goos oracle c3
            (runAndCapture goos oracle c2 (runAndCapture goos oracle c1 w).2).2).1
            = o3.1.output ++ "\n")
      ∧ (∀ e, o3.1.err = some e →
          (runAndCapture goos oracle c3
            (runAndCapture goos oracle c2 (runAndCapture goos oracle c1 w).2).2).1
            = "Error: " ++ e ++ "\n")
      ∧ (o4.1.err = none →
          (runAndCapture goos oracle c4
            (runAndCapture goos oracle c3
              (runAndCapture goos oracle c2 (runAndCapture goos oracle c1 w).2).2).2).1
            = o4.1.output ++ "\n")
      ∧ (∀ e, o4.1.err = some e →
          (runAndCapture goos oracle c4
            (runAndCapture goos oracle c3
              (runAndCapture goos oracle c2 (runAndCapture goos oracle c1 w).2).2).2).1
            = "Error: " ++ e ++ "\n")
      ∧ (runAndCapture goos oracle c4
            (runAndCapture goos oracle c3
              (runAndCapture goos oracle c2 (runAndCapture goos oracle c1 w).2).2).2).2
          = { st := o4.2,
              executed := w.executed ++ [shellArgv goos c1, shellArgv goos c2,
                shellArgv goos c3, shellArgv goos c4] } := by
  obtain ⟨s1, n1, e1⟩ := runAndCapture_spec goos oracle c1 w
  obtain ⟨s2, n2, e2⟩ := runAndCapture_spec goos oracle c2 (runAndCapture goos oracle c1 w).2
  obtain ⟨s3, n3, e3⟩ := runAndCapture_spec goos oracle c3
    (runAndCapture goos oracle c2 (runAndCapture goos oracle c1 w).2).2
  obtain ⟨s4, n4, e4⟩ := runAndCapture_spec goos oracle c4
    (runAndCapture goos oracle c3
      (runAndCapture goos oracle c2 (runAndCapture goos oracle c1 w).2).2).2
  have t1 : (runAndCapture goos oracle c1 w).2.st = (oracle w.st (shellArgv goos c1)).2 := by
    rw [s1]
  rw [t1] at s2 n2 e2
  have t2 : (runAndCapture goos oracle c2 (runAndCapture goos oracle c1 w).2).2.st
      = (oracle (oracle w.st (shellArgv goos c1)).2 (shellArgv goos c2)).2 := by
    rw [s2]
  rw [t2] at s3 n3 e3
  have t3 : (runAndCapture goos oracle c3
        (runAndCapture goos oracle c2 (runAndCapture goos oracle c1 w).2).2).2.st
      = (oracle (oracle (oracle w.st (shellArgv goos c1)).2 (shellArgv goos c2)).2
          (shellArgv goos c3)).2 := by
    rw [s3]
  rw [t3] at s4 n4 e4
  refine ⟨_, _, _, _, rfl, rfl, rfl, rfl, n1, e1, n2, e2, n3, e3, n4, e4, ?_⟩
  rw [s4, s3, s2, s1]
  simp

/-- C5: for every config and every outcome of the four collection commands,
the text `handleConnection` writes is the header line
`---- LIVE SYSTEM STATS ----` followed by the CPU, memory and disk sections, in
that order, and then the log-tail section.  The four commands are those the
code names for `config.OS`; they are executed in that order, each on the host
as the previous one left it; and each section is the captured output of its
command followed by a newline, or `Error: ` with the error and a newline when
the command failed.  The connection is then closed. -/
theorem handleConnection_wire_format {σ : Type} (goos : String)
    (oracle : σ → List String → CmdOutcome × σ) (config : Config) (w : Sys σ) :
    ∃ (cpuCmd memCmd diskCmd logCmd : String) (o1 o2 o3 o4 : CmdOutcome × σ)
      (cpu mem disk log : String),
      [cpuCmd, memCmd, diskCmd, logCmd]
        = (if config.OS = "windows" then
            [ "wmic cpu get loadpercentage",
              "wmic os get FreePhysicalMemory,TotalVisibleMemorySize",
              "wmic logicaldisk get size,freespace,caption",
              "powershell -Command \"Get-Content '" ++ config.LogPath ++ "' -Tail 10\"" ]
          else
            [ "top -b -n1 | head -n 5", "free -h", "df -h",
              "tail -n 10 " ++ config.LogPath ])
      ∧ o1 = oracle w.st (shellArgv goos cpuCmd)
      ∧ o2 = oracle o1.2 (shellArgv goos memCmd)
      ∧ o3 = oracle o2.2 (shellArgv goos diskCmd)
      ∧ o4 = oracle o3.2 (shellArgv goos logCmd)
      ∧ (o1.1.err = none → cpu = o1.1.output ++ "\n")
      ∧ (∀ e, o1.1.err = some e → cpu = "Error: " ++ e ++ "\n")
      ∧ (o2.1.err = none → mem = o2.1.output ++ "\n")
      ∧ (∀ e, o2.1.err = some e → mem = "Error: " ++ e ++ "\n")
      ∧ (o3.1.err = none → disk = o3.1.output ++ "\n")
      ∧ (∀ e, o3.1.err = some e → disk = "Error: " ++ e ++ "\n")
      ∧ (o4.1.err = none → log = o4.1.output ++ "\n")
      ∧ (∀ e, o4.1.err = some e → log = "Error: " ++ e ++ "\n")
      ∧ (handleConnection goos oracle config w).written
          = "---- LIVE SYSTEM STATS ----\n" ++ cpu ++ mem ++ disk ++ log
      ∧ (handleConnection goos oracle config w).closed = true
      ∧ (handleConnection goos oracle config w).sys
          = { st := o4.2,
              executed := w.executed ++ [shellArgv goos cpuCmd, shellArgv goos memCmd,
                shellArgv goos diskCmd, shellArgv goos logCmd] } := by
  by_cases hw : config.OS = "windows"
  · obtain ⟨o1, o2, o3, o4, h1, h2, h3, h4, n1, e1, n2, e2, n3, e3, n4, e4, hs⟩ :=
      runAndCapture_chain goos oracle "wmic cpu get loadpercentage"
        "wmic os get FreePhysicalMemory,TotalVisibleMemorySize"
        "wmic logicaldisk get size,freespace,caption"
        ("powershell -Command \"Get-Content '" ++ config.LogPath ++ "' -Tail 10\"") w
    refine ⟨_, _, _, _, o1, o2, o3, o4, _, _, _, _, by rw [if_pos hw], h1, h2, h3, h4,
      n1, e1, n2, e2, n3, e3, n4, e4, ?_, ?_, ?_⟩
    · simp only [handleConnection, if_pos hw, liveHeader]
      simp
    · simp only [handleConnection, if_pos hw]
    · rw [← hs]
      simp only [handleConnection, if_pos hw]
  · obtain ⟨o1, o2, o3, o4, h1, h2, h3, h4, n1, e1, n2, e2, n3, e3, n4, e4, hs⟩ :=
      runAndCapture_chain goos oracle "top -b -n1 | head -n 5" "free -h" "df -h"
        ("tail -n 10 " ++ config.LogPath) w
    refine ⟨_, _, _, _, o1, o2, o3, o4, _, _, _, _, by rw [if_neg hw], h1, h2, h3, h4,
      n1, e1, n2, e2, n3, e3, n4, e4, ?_, ?_, ?_⟩
    · simp only [handleConnection, if_neg hw, liveHeader]
      simp
    · simp only [handleConnection, if_neg hw]
    · rw [← hs]
      simp only [handleConnection, if_neg hw]

/-- Witness for C5: a Linux host whose state counts the commands run; every
command prints its own command line and the count, except that the third one
run fails with `exit status 1`. -/
theorem handleConnection_wire_format_witness :
    (handleConnection "linux"
        (fun (n : Nat) argv =>
          (⟨String.intercalate " " argv ++ " @" ++ toString n,
            if n = 2 then some "exit status 1" else none⟩, n + 1))
        ⟨"linux", "web", "/var/log/syslog"⟩ ⟨0, []⟩).written
      = "---- LIVE SYSTEM STATS ----\n"
        ++ "bash -c top -b -n1 | head -n 5 @0\n"
        ++ "bash -c free -h @1\n"
        ++ "Error: exit status 1\n"
        ++ "bash -c tail -n 10 /var/log/syslog @3\n" := by
  obtain ⟨c1, c2, c3, c4, o1, o2, o3, o4, cpu, mem, disk, log, hc, h1, h2, h3, h4,
      n1, _, n2, _, _, e3, n4, _, hwr, _, _⟩ :=
    handleConnection_wire_format "linux"
      (fun (n : Nat) argv =>
        (⟨String.intercalate " " argv ++ " @" ++ toString n,
          if n = 2 then some "exit status 1" else none⟩, n + 1))
      ⟨"linux", "web", "/var/log/syslog"⟩ ⟨0, []⟩
  rw [if_neg (by decide)] at hc
  injection hc with hc1 hc
  injection hc with hc2 hc
  injection hc with hc3 hc
  injection hc with hc4 _
  subst hc1 hc2 hc3 hc4 h1 h2 h3 h4
  rw [hwr, n1 (by decide), n2 (by decide), e3 "exit status 1" (by decide), n4 (by decide)]
  decide

/-- C6: when the execution of a command fails with error `e`, `runAndCapture`
returns the non-empty section `Error: e` followed by a newline; and when that
command is one of the four run by `handleConnection`, the response still has
the header and all four sections, the failed one being that marker, in its
place between the sections of the commands before and after it. -/
theorem runAndCapture_marks_failure {σ : Type} (goos : String)
    (oracle : σ → List String → CmdOutcome × σ) (command : String) (w : Sys σ) (e : String)
    (h : (oracle w.st (shellArgv goos command)).1.err = some e) :
    (runAndCapture goos oracle command w).1 = "Error: " ++ e ++ "\n"
    ∧ (runAndCapture goos oracle command w).1 ≠ ""
    ∧ "Error: ".toList <+: (runAndCapture goos oracle command w).1.toList
    ∧ "\n".toList <:+ (runAndCapture goos oracle command w).1.toList
    ∧ (∀ (config : Config) (w0 : Sys σ) (pre post : List String),
        collectionCommands config = pre ++ command :: post →
        (captureAll goos oracle pre w0).2 = w →
        (handleConnection goos oracle config w0).written
            = liveHeader ++ String.join (captureAll goos oracle pre w0).1
              ++ ("Error: " ++ e ++ "\n")
              ++ String.join (captureAll goos oracle post
                  (runAndCapture goos oracle command w).2).1
          ∧ (captureAll goos oracle pre w0).1.length + 1
              + (captureAll goos oracle post
                  (runAndCapture goos oracle command w).2).1.length = 4) := by
  have hf := runAndCapture_failure goos oracle command w e h
  refine ⟨hf, ?_, ?_, ?_, ?_⟩
  · rw [hf]
    exact append_newline_ne_empty _
  · rw [hf]
    exact ⟨(e ++ "\n").toList, by simp [String.append_assoc]⟩
  · rw [hf]
    exact ⟨("Error: " ++ e).toList, by simp⟩
  · intro config w0 pre post hsplit hw
    have hlen := captureAll_length goos oracle (collectionCommands config) w0
    rw [collectionCommands_length] at hlen
    obtain ⟨hwr, _⟩ := handleConnection_eq goos oracle config w0
    rw [hsplit, captureAll_append] at hlen
    rw [hwr, hsplit, captureAll_append]
    simp only [captureAll, hw, hf] at hlen ⊢
    constructor
    · rw [join_append, join_cons]
      simp only [String.append_assoc]
    · simp only [List.length_append, List.length_cons] at hlen
      omega

/-- Witness for C6: on a Linux host where `df -h` fails with `exit status 127`
and every other command prints `ok`. -/
theorem runAndCapture_marks_failure_witness :
    (runAndCapture "linux"
        (fun (_ : Unit) argv =>
          if argv = ["bash", "-c", "df -h"] then (⟨"", some "exit status 127"⟩, ())
          else (⟨"ok", none⟩, ()))
        "df -h" ⟨(), [["bash", "-c", "top -b -n1 | head -n 5"], ["bash", "-c", "free -h"]]⟩).1
      = "Error: exit status 127\n"
    ∧ (handleConnection "linux"
        (fun (_ : Unit) argv =>
          if argv = ["bash", "-c", "df -h"] then (⟨"", some "exit status 127"⟩, ())
          else (⟨"ok", none⟩, ()))
        ⟨"linux", "web", "/var/log/syslog"⟩ ⟨(), []⟩).written
      = "---- LIVE SYSTEM STATS ----\nok\nok\nError: exit status 127\nok\n" := by
  have h := runAndCapture_marks_failure "linux"
    (fun (_ : Unit) argv =>
      if argv = ["bash", "-c", "df -h"] then (⟨"", some "exit status 127"⟩, ())
      else (⟨"ok", none⟩, ()))
    "df -h" ⟨(), [["bash", "-c", "top -b -n1 | head -n 5"], ["bash", "-c", "free -h"]]⟩
    "exit status 127" (by decide)
  refine ⟨h.1, ?_⟩
  have h2 := (h.2.2.2.2 ⟨"linux", "web", "/var/log/syslog"⟩ ⟨(), []⟩
    ["top -b -n1 | head -n 5", "free -h"] ["tail -n 10 /var/log/syslog"]
    (by decide) rfl).1
  rw [h2]
  decide



/-! ## The buffered reader and the stream it reads -/

theorem splitLine_cons (c : Char) (cs : Bytes) :
    splitLine (c :: cs) =
      if c = '\n' then some ([c], cs)
      else
        match splitLine cs with
        | some (l, rest) => some (c :: l, rest)
        | none => none := rfl

theorem linesFrom_cons (cur : Bytes) (c : Char) (cs : Bytes) :
    linesFrom cur (c :: cs) =
      if c = '\n' then (cur ++ [c]) :: linesFrom [] cs else linesFrom (cur ++ [c]) cs := rfl

theorem splitLine_eq_append {b l rest : Bytes} (h : splitLine b = some (l, rest)) :
    b = l ++ rest := by
  induction b generalizing l rest with
  | nil => simp [splitLine] at h
  | cons c cs ih =>
    rw [splitLine_cons] at h
    by_cases hc : c = '\n'
    · rw [if_pos hc] at h
      cases h
      rfl
    · rw [if_neg hc] at h
      cases hs : splitLine cs with
      | none => rw [hs] at h; cases h
      | some p =>
        obtain ⟨l', rest'⟩ := p
        rw [hs] at h
        cases h
        rw [ih hs]
        rfl

theorem splitLine_append_some {b l rest : Bytes} (h : splitLine b = some (l, rest))
    (x : Bytes) : splitLine (b ++ x) = some (l, rest ++ x) := by
  induction b generalizing l rest with
  | nil => simp [splitLine] at h
  | cons c cs ih =>
    rw [splitLine_cons] at h
    rw [List.cons_append, splitLine_cons]
    by_cases hc : c = '\n'
    · rw [if_pos hc] at h ⊢
      cases h
      rfl
    · rw [if_neg hc] at h ⊢
      cases hs : splitLine cs with
      | none => rw [hs] at h; cases h
      | some p =>
        obtain ⟨l', rest'⟩ := p
        rw [hs] at h
        cases h
        rw [ih hs]

theorem splitLine_append_none {b : Bytes} (h : splitLine b = none) (x : Bytes) :
    splitLine (b ++ x) = (splitLine x).map (fun p => (b ++ p.1, p.2)) := by
  induction b with
  | nil =>
    rw [List.nil_append]
    cases splitLine x <;> simp
  | cons c cs ih =>
    rw [splitLine_cons] at h
    rw [List.cons_append, splitLine_cons]
    by_cases hc : c = '\n'
    · rw [if_pos hc] at h
      cases h
    · rw [if_neg hc] at h ⊢
      cases hs : splitLine cs with
      | some p => rw [hs] at h; cases h
      | none =>
        rw [ih hs]
        cases splitLine x <;> simp

theorem splitLine_none_iff (b : Bytes) : splitLine b = none ↔ '\n' ∉ b := by
  induction b with
  | nil => simp [splitLine]
  | cons c cs ih =>
    rw [splitLine_cons]
    by_cases hc : c = '\n'
    · simp [hc]
    · rw [if_neg hc]
      have hc' : ¬ '\n' = c := fun h => hc h.symm
      cases hs : splitLine cs with
      | some p =>
        have : ¬ ('\n' ∉ cs) := fun hn => by rw [ih.2 hn] at hs; cases hs
        simp only [List.mem_cons, not_or]
        constructor
        · intro h; cases h
        · intro h; exact absurd h.2 this
      | none =>
        simp only [List.mem_cons, not_or, true_iff]
        exact ⟨hc', ih.1 hs⟩

theorem splitLine_terminated {b0 : Bytes} (h : '\n' ∉ b0) :
    splitLine (b0 ++ ['\n']) = some (b0 ++ ['\n'], []) := by
  rw [splitLine_append_none ((splitLine_none_iff b0).2 h)]
  simp [splitLine]

theorem linesFrom_eq (cur s : Bytes) :
    linesFrom cur s =
      match splitLine s with
      | some (l, rest) => (cur ++ l) :: linesFrom [] rest
      | none => [] := by
  induction s generalizing cur with
  | nil => simp [linesFrom, splitLine]
  | cons c cs ih =>
    rw [linesFrom_cons, splitLine_cons]
    by_cases hc : c = '\n'
    · rw [if_pos hc, if_pos hc]
    · rw [if_neg hc, if_neg hc, ih]
      cases hs : splitLine cs with
      | none => rfl
      | some p => simp

theorem completeLines_of_some {s l rest : Bytes} (h : splitLine s = some (l, rest)) :
    completeLines s = l :: completeLines rest := by
  unfold completeLines
  rw [linesFrom_eq, h]
  simp

theorem completeLines_of_none {s : Bytes} (h : splitLine s = none) :
    completeLines s = [] := by
  unfold completeLines
  rw [linesFrom_eq, h]



theorem readStringAux_succ (file : Bytes) (fuel : Nat) (rd : Reader) (acc : Bytes) :
    readStringAux file (fuel + 1) rd acc =
      match splitLine rd.buf with
      | some (l, rest) => ⟨acc ++ l, true, ⟨rd.pos, rest⟩⟩
      | none =>
        if defaultBufSize ≤ rd.buf.length then
          readStringAux file fuel ⟨rd.pos, []⟩ (acc ++ rd.buf)
        else
          if (file.drop rd.pos).take (defaultBufSize - rd.buf.length) = [] then
            ⟨acc ++ rd.buf, false, ⟨rd.pos, []⟩⟩
          else
            readStringAux file fuel
              ⟨rd.pos + ((file.drop rd.pos).take (defaultBufSize - rd.buf.length)).length,
                rd.buf ++ (file.drop rd.pos).take (defaultBufSize - rd.buf.length)⟩ acc := rfl

theorem take_eq_nil_of_pos {n : Nat} {d : Bytes} (hn : 0 < n) (h : d.take n = []) : d = [] := by
  cases d with
  | nil => rfl
  | cons c cs =>
    cases n with
    | zero => omega
    | succ m => simp at h

/-- The buffered reader implements reading the stream `buf ++ file.drop pos`:
with fuel above the number of rounds the loop can make, `ReadString` returns
the first line of the stream and leaves the rest of the stream to be read, or,
when the stream holds no newline, returns all of it with an error and leaves
nothing. -/
theorem readStringAux_stream (file : Bytes) (fuel : Nat) (rd : Reader) (acc : Bytes)
    (hfuel : 2 * (file.length - rd.pos)
      + (if defaultBufSize ≤ rd.buf.length then 1 else 0) < fuel) :
    (∀ l rest, splitLine (rd.buf ++ file.drop rd.pos) = some (l, rest) →
        (readStringAux file fuel rd acc).line = acc ++ l
        ∧ (readStringAux file fuel rd acc).ok = true
        ∧ (readStringAux file fuel rd acc).rd.buf
            ++ file.drop (readStringAux file fuel rd acc).rd.pos = rest)
    ∧ (splitLine (rd.buf ++ file.drop rd.pos) = none →
        (readStringAux file fuel rd acc).line = acc ++ (rd.buf ++ file.drop rd.pos)
        ∧ (readStringAux file fuel rd acc).ok = false
        ∧ (readStringAux file fuel rd acc).rd.buf
            ++ file.drop (readStringAux file fuel rd acc).rd.pos = []) := by
  induction fuel generalizing rd acc with
  | zero => omega
  | succ fuel ih =>
    obtain ⟨pos, buf⟩ := rd
    simp only at hfuel ⊢
    rw [readStringAux_succ]
    simp only
    cases hs : splitLine buf with
    | some p =>
      obtain ⟨l', rest'⟩ := p
      have happ := splitLine_append_some hs (file.drop pos)
      simp only
      constructor
      · intro l rest hlr
        rw [happ] at hlr
        cases hlr
        simp
      · intro hn
        rw [happ] at hn
        cases hn
    | none =>
      simp only
      have happ := splitLine_append_none hs (file.drop pos)
      by_cases hfull : defaultBufSize ≤ buf.length
      · rw [if_pos hfull]
        rw [if_pos hfull] at hfuel
        have ih' := ih ⟨pos, []⟩ (acc ++ buf) (by simp only [List.length_nil]; simp [defaultBufSize]; omega)
        simp only [List.nil_append] at ih'
        constructor
        · intro l rest hlr
          rw [happ] at hlr
          cases hd : splitLine (file.drop pos) with
          | none => rw [hd] at hlr; cases hlr
          | some q =>
            obtain ⟨l2, rest2⟩ := q
            rw [hd] at hlr
            cases hlr
            obtain ⟨h1, h2, h3⟩ := ih'.1 l2 rest2 hd
            exact ⟨by rw [h1, List.append_assoc], h2, h3⟩
        · intro hn
          rw [happ] at hn
          have hd : splitLine (file.drop pos) = none := by
            cases hd : splitLine (file.drop pos) with
            | none => rfl
            | some q => rw [hd] at hn; cases hn
          obtain ⟨h1, h2, h3⟩ := ih'.2 hd
          exact ⟨by rw [h1, List.append_assoc], h2, h3⟩
      · rw [if_neg hfull]
        rw [if_neg hfull] at hfuel
        have hn0 : 0 < defaultBufSize - buf.length := by omega
        by_cases hch : (file.drop pos).take (defaultBufSize - buf.length) = []
        · rw [if_pos hch]
          have hdrop : file.drop pos = [] := take_eq_nil_of_pos hn0 hch
          simp only [hdrop, List.append_nil]
          constructor
          · intro l rest hlr
            rw [hs] at hlr
            cases hlr
          · intro _
            simp [hdrop]
        · rw [if_neg hch]
          generalize hk : (file.drop pos).take (defaultBufSize - buf.length) = chunk at hch ⊢
          have hklen : chunk.length ≤ file.length - pos := by
            rw [← hk, List.length_take, List.length_drop]
            exact Nat.min_le_right _ _
          have hkpos : 0 < chunk.length := List.length_pos.2 hch
          have hstream : (buf ++ chunk) ++ file.drop (pos + chunk.length)
              = buf ++ file.drop pos := by
            rw [List.append_assoc, ← List.drop_drop]
            congr 1
            rw [← hk]
            have : ((file.drop pos).take (defaultBufSize - buf.length)).length
                = min (defaultBufSize - buf.length) (file.drop pos).length :=
              List.length_take _ _
            rw [this]
            rcases Nat.le_total (defaultBufSize - buf.length) (file.drop pos).length with hle | hle
            · rw [Nat.min_eq_left hle, List.take_append_drop]
            · rw [Nat.min_eq_right hle, List.take_of_length_le hle, List.drop_length,
                List.append_nil]
          have ih' := ih ⟨pos + chunk.length, buf ++ chunk⟩ acc (by
            simp only
            split <;> omega)
          simp only [hstream] at ih'
          exact ih'



theorem readString_stream (file : Bytes) (rd : Reader) :
    (∀ l rest, splitLine (rd.buf ++ file.drop rd.pos) = some (l, rest) →
        (readString file rd).line = l
        ∧ (readString file rd).ok = true
        ∧ (readString file rd).rd.buf ++ file.drop (readString file rd).rd.pos = rest)
    ∧ (splitLine (rd.buf ++ file.drop rd.pos) = none →
        (readString file rd).line = rd.buf ++ file.drop rd.pos
        ∧ (readString file rd).ok = false
        ∧ (readString file rd).rd.buf ++ file.drop (readString file rd).rd.pos = []) := by
  have h := readStringAux_stream file (2 * file.length + 3) rd [] (by split <;> omega)
  simpa [readString] using h

theorem readStringAux_pos_le (file : Bytes) (fuel : Nat) (rd : Reader) (acc : Bytes)
    (h : rd.pos ≤ file.length) : (readStringAux file fuel rd acc).rd.pos ≤ file.length := by
  induction fuel generalizing rd acc with
  | zero => exact h
  | succ fuel ih =>
    rw [readStringAux_succ]
    cases hs : splitLine rd.buf with
    | some p => exact h
    | none =>
      simp only
      split
      · exact ih ⟨rd.pos, []⟩ _ h
      · split
        · exact h
        · apply ih
          simp only [List.length_take, List.length_drop]
          omega

/-- Fuel beyond the bound changes nothing: the result of `readStringAux` is
that of the loop run to its end. -/
theorem readStringAux_fuel_succ (file : Bytes) (fuel : Nat) (rd : Reader) (acc : Bytes)
    (hfuel : 2 * (file.length - rd.pos)
      + (if defaultBufSize ≤ rd.buf.length then 1 else 0) < fuel) :
    readStringAux file (fuel + 1) rd acc = readStringAux file fuel rd acc := by
  induction fuel generalizing rd acc with
  | zero => omega
  | succ fuel ih =>
    rw [readStringAux_succ file (fuel + 1) rd acc]
    conv_rhs => rw [readStringAux_succ file fuel rd acc]
    cases hs : splitLine rd.buf with
    | some p => rfl
    | none =>
      simp only
      by_cases hfull : defaultBufSize ≤ rd.buf.length
      · rw [if_pos hfull, if_pos hfull]
        rw [if_pos hfull] at hfuel
        exact ih ⟨rd.pos, []⟩ _ (by simp [defaultBufSize]; omega)
      · rw [if_neg hfull, if_neg hfull]
        rw [if_neg hfull] at hfuel
        by_cases hch : (file.drop rd.pos).take (defaultBufSize - rd.buf.length) = []
        · rw [if_pos hch, if_pos hch]
        · rw [if_neg hch, if_neg hch]
          apply ih
          have hkpos : 0 < ((file.drop rd.pos).take (defaultBufSize - rd.buf.length)).length :=
            List.length_pos.2 hch
          have hklen : ((file.drop rd.pos).take (defaultBufSize - rd.buf.length)).length
              ≤ file.length - rd.pos := by
            rw [List.length_take, List.length_drop]
            exact Nat.min_le_right _ _
          simp only
          split <;> omega

theorem readStringAux_fuel (file : Bytes) (fuel extra : Nat) (rd : Reader) (acc : Bytes)
    (hfuel : 2 * (file.length - rd.pos)
      + (if defaultBufSize ≤ rd.buf.length then 1 else 0) < fuel) :
    readStringAux file (fuel + extra) rd acc = readStringAux file fuel rd acc := by
  induction extra with
  | zero => rfl
  | succ extra ih =>
    rw [← Nat.add_assoc, readStringAux_fuel_succ file (fuel + extra) rd acc (by omega), ih]

/-- Reading does not depend on what lies before the reader's offset: with
`init` put in front of the file and the offset moved accordingly, the reader
returns the same data and ends at the same place. -/
theorem readStringAux_shift (init file : Bytes) (fuel : Nat) (rd : Reader) (acc : Bytes) :
    readStringAux (init ++ file) fuel ⟨init.length + rd.pos, rd.buf⟩ acc =
      { line := (readStringAux file fuel rd acc).line,
        ok := (readStringAux file fuel rd acc).ok,
        rd := ⟨init.length + (readStringAux file fuel rd acc).rd.pos,
               (readStringAux file fuel rd acc).rd.buf⟩ } := by
  induction fuel generalizing rd acc with
  | zero => rfl
  | succ fuel ih =>
    rw [readStringAux_succ (init ++ file) fuel ⟨init.length + rd.pos, rd.buf⟩ acc,
      readStringAux_succ file fuel rd acc]
    have hdrop : (init ++ file).drop (init.length + rd.pos) = file.drop rd.pos := by
      rw [← List.drop_drop, List.drop_left]
    simp only [hdrop]
    cases hs : splitLine rd.buf with
    | some p => rfl
    | none =>
      simp only
      by_cases hfull : defaultBufSize ≤ rd.buf.length
      · rw [if_pos hfull, if_pos hfull]
        exact ih ⟨rd.pos, []⟩ _
      · rw [if_neg hfull, if_neg hfull]
        by_cases hch : (file.drop rd.pos).take (defaultBufSize - rd.buf.length) = []
        · rw [if_pos hch, if_pos hch]
        · rw [if_neg hch, if_neg hch]
          have := ih ⟨rd.pos + ((file.drop rd.pos).take (defaultBufSize - rd.buf.length)).length,
            rd.buf ++ (file.drop rd.pos).take (defaultBufSize - rd.buf.length)⟩ acc
          simp only [← Nat.add_assoc] at this
          exact this

theorem readString_shift (init file : Bytes) (rd : Reader) :
    readString (init ++ file) ⟨init.length + rd.pos, rd.buf⟩ =
      { line := (readString file rd).line,
        ok := (readString file rd).ok,
        rd := ⟨init.length + (readString file rd).rd.pos, (readString file rd).rd.buf⟩ } := by
  unfold readString
  rw [readStringAux_shift]
  have hlen : 2 * (init ++ file).length + 3 = (2 * file.length + 3) + 2 * init.length := by
    rw [List.length_append]; omega
  rw [hlen, readStringAux_fuel file (2 * file.length + 3) (2 * init.length) rd []
    (by split <;> omega)]



/-! ## The tail loop -/

theorem tailStep_of_some {file : Bytes} {t : Tailer} {l rest : Bytes}
    (h : splitLine (t.rd.buf ++ file.drop t.rd.pos) = some (l, rest)) :
    (tailStep file t).out = t.out ++ [l]
    ∧ (tailStep file t).rd.buf ++ file.drop (tailStep file t).rd.pos = rest := by
  obtain ⟨h1, h2, h3⟩ := (readString_stream file t.rd).1 l rest h
  unfold tailStep
  simp only [h2, if_true, h1]
  exact ⟨trivial, h3⟩

theorem tailStep_of_none {file : Bytes} {t : Tailer}
    (h : splitLine (t.rd.buf ++ file.drop t.rd.pos) = none) :
    (tailStep file t).out = t.out
    ∧ (tailStep file t).rd.buf ++ file.drop (tailStep file t).rd.pos = [] := by
  obtain ⟨_, h2, h3⟩ := (readString_stream file t.rd).2 h
  unfold tailStep
  simp only [h2]
  exact ⟨rfl, h3⟩

theorem tailStep_rd (file : Bytes) (t : Tailer) :
    (tailStep file t).rd = (readString file t.rd).rd
    ∧ (tailStep file t).polls = t.polls + 1 := by
  unfold tailStep
  dsimp only
  split <;> exact ⟨rfl, rfl⟩

theorem tailStep_pos_le {file : Bytes} {t : Tailer} (h : t.rd.pos ≤ file.length) :
    (tailStep file t).rd.pos ≤ file.length := by
  rw [(tailStep_rd file t).1]
  exact readStringAux_pos_le file _ t.rd [] h

theorem tailLoop_cons (w : World) (e : Event) (events : List Event) :
    tailLoop w (e :: events) = tailLoop (step w e) events := rfl

theorem tailLoop_append (w : World) (xs ys : List Event) :
    tailLoop w (xs ++ ys) = tailLoop (tailLoop w xs) ys := by
  unfold tailLoop
  rw [List.foldl_append]

/-- On a file that does not change, `k` iterations of the tail loop print the
first `k` complete lines of the stream still to be read. -/
theorem tailLoop_polls (k : Nat) (w : World) :
    (tailLoop w (List.replicate k Event.poll)).file = w.file
    ∧ (tailLoop w (List.replicate k Event.poll)).t.out
        = w.t.out ++ (completeLines (w.t.rd.buf ++ w.file.drop w.t.rd.pos)).take k := by
  induction k generalizing w with
  | zero => simp [tailLoop]
  | succ k ih =>
    rw [List.replicate_succ, tailLoop_cons]
    obtain ⟨ihf, iho⟩ := ih (step w Event.poll)
    have hfile : (step w Event.poll).file = w.file := rfl
    have ht : (step w Event.poll).t = tailStep w.file w.t := rfl
    rw [ihf, iho, hfile, ht]
    refine ⟨rfl, ?_⟩
    cases hs : splitLine (w.t.rd.buf ++ w.file.drop w.t.rd.pos) with
    | none =>
      obtain ⟨h1, h2⟩ := tailStep_of_none hs
      rw [h1, h2, completeLines_of_none hs]
      simp [completeLines, linesFrom]
    | some p =>
      obtain ⟨l, rest⟩ := p
      obtain ⟨h1, h2⟩ := tailStep_of_some hs
      rw [h1, h2, completeLines_of_some hs]
      simp

theorem tailLogFile_ok {fs : String → Except String OpenedFile} {path : String}
    {f : OpenedFile} (hopen : fs path = .ok f) (hstat : f.statErr = none)
    (hseek : f.seekErr = none) (events : List Event) :
    tailLogFile fs path events =
      { err := none,
        polls := (tailLoop ⟨f.content, ⟨⟨f.content.length, []⟩, 0, [tailBanner]⟩⟩ events).t.polls,
        out := (tailLoop ⟨f.content, ⟨⟨f.content.length, []⟩, 0, [tailBanner]⟩⟩ events).t.out,
        file := (tailLoop ⟨f.content, ⟨⟨f.content.length, []⟩, 0, [tailBanner]⟩⟩ events).file,
        rd := (tailLoop ⟨f.content, ⟨⟨f.content.length, []⟩, 0, [tailBanner]⟩⟩ events).t.rd } := by
  unfold tailLogFile
  simp only [hopen, hstat, hseek]

theorem tailInv_step {init A : Bytes} {w : World} (h : TailInv init A w) (e : Event)
    (he : ∀ n, e ≠ Event.truncate n) :
    TailInv init (A ++ appended [e]) (step w e) := by
  obtain ⟨hfile, hpos, ⟨consumed, hA⟩, ⟨lines, hout, hlines⟩⟩ := h
  cases e with
  | truncate n => exact absurd rfl (he n)
  | append data =>
    have hdrop : (w.file ++ data).drop w.t.rd.pos = w.file.drop w.t.rd.pos ++ data :=
      List.drop_append_of_le_length hpos
    refine ⟨?_, ?_, ⟨consumed, ?_⟩, ⟨lines, hout, ?_⟩⟩
    · simp [step, appended, hfile]
    · simp only [step, List.length_append]
      omega
    · simp only [step, appended, List.append_nil, hdrop]
      rw [hA]
      simp only [List.append_assoc]
    · intro l hl
      obtain ⟨pre, post, hp⟩ := hlines l hl
      exact ⟨pre, post ++ data, by simp [appended, hp]⟩
  | poll =>
    have hfile' : (step w Event.poll).file = w.file := rfl
    have ht : (step w Event.poll).t = tailStep w.file w.t := rfl
    simp only [appended, List.append_nil]
    refine ⟨hfile, ?_, ?_, ?_⟩
    · rw [hfile', ht]
      exact tailStep_pos_le hpos
    · rw [hfile', ht]
      cases hs : splitLine (w.t.rd.buf ++ w.file.drop w.t.rd.pos) with
      | none =>
        obtain ⟨_, h2⟩ := tailStep_of_none hs
        exact ⟨A, by rw [h2, List.append_nil]⟩
      | some p =>
        obtain ⟨l, rest⟩ := p
        obtain ⟨_, h2⟩ := tailStep_of_some hs
        refine ⟨consumed ++ l, ?_⟩
        rw [h2, hA, splitLine_eq_append hs, List.append_assoc]
    · rw [ht]
      cases hs : splitLine (w.t.rd.buf ++ w.file.drop w.t.rd.pos) with
      | none =>
        obtain ⟨h1, _⟩ := tailStep_of_none hs
        exact ⟨lines, by rw [h1, hout], hlines⟩
      | some p =>
        obtain ⟨l, rest⟩ := p
        obtain ⟨h1, _⟩ := tailStep_of_some hs
        refine ⟨lines ++ [l], by rw [h1, hout]; rfl, ?_⟩
        intro l' hl'
        rcases List.mem_append.1 hl' with hm | hm
        · exact hlines l' hm
        · have : l' = l := by simpa using hm
          subst this
          exact ⟨consumed, rest, by rw [hA, splitLine_eq_append hs, List.append_assoc]⟩

theorem appended_cons (e : Event) (events : List Event) :
    appended (e :: events) = appended [e] ++ appended events := by
  cases e <;> simp [appended]

theorem tailInv_loop {init : Bytes} (events : List Event)
    (hno : ∀ n, Event.truncate n ∉ events) {A : Bytes} {w : World} (h : TailInv init A w) :
    TailInv init (A ++ appended events) (tailLoop w events) := by
  induction events generalizing A w with
  | nil => simpa [tailLoop, appended] using h
  | cons e rest ih =>
    rw [tailLoop_cons, appended_cons, ← List.append_assoc]
    apply ih
    · intro n hn
      exact hno n (List.mem_cons_of_mem _ hn)
    · apply tailInv_step h
      intro n hn
      exact hno n (by rw [hn]; exact List.mem_cons_self _ _)

theorem tailStep_shift (init file : Bytes) (t : Tailer) :
    tailStep (init ++ file) ⟨⟨init.length + t.rd.pos, t.rd.buf⟩, t.polls, t.out⟩ =
      ⟨⟨init.length + (tailStep file t).rd.pos, (tailStep file t).rd.buf⟩,
        (tailStep file t).polls, (tailStep file t).out⟩ := by
  unfold tailStep
  simp only [readString_shift]
  split <;> rfl

theorem tailLoop_shift (init : Bytes) (events : List Event)
    (hno : ∀ n, Event.truncate n ∉ events) (w : World) :
    tailLoop (shiftWorld init w) events = shiftWorld init (tailLoop w events) := by
  induction events generalizing w with
  | nil => rfl
  | cons e rest ih =>
    rw [tailLoop_cons, tailLoop_cons]
    have hrest : ∀ n, Event.truncate n ∉ rest := fun n hn =>
      hno n (List.mem_cons_of_mem _ hn)
    have hstep : step (shiftWorld init w) e = shiftWorld init (step w e) := by
      cases e with
      | truncate n => exact absurd (List.mem_cons_self _ _) (hno n)
      | append data => simp [step, shiftWorld]
      | poll =>
        simp only [step, shiftWorld]
        rw [tailStep_shift]
    rw [hstep]
    exact ih hrest (step w e)



/-! ## Properties of `tailLogFile` -/

/-- C1: when `tailLogFile` opens a file holding `f.content` and the file is
afterwards only appended to, reading starts at the offset `len(f.content)`,
the file is `f.content` followed by the appended bytes, the output is the
banner followed by lines that each lie in the appended bytes (so at file
offsets at or beyond the size at open time), and the output is the one the
same events produce on a file that was empty when opened. -/
theorem tailLogFile_no_replay (fs : String → Except String OpenedFile) (path : String)
    (f : OpenedFile) (events : List Event)
    (hopen : fs path = .ok f) (hstat : f.statErr = none) (hseek : f.seekErr = none)
    (hno : ∀ n, Event.truncate n ∉ events) :
    (tailLogFile fs path []).rd = ⟨f.content.length, []⟩
    ∧ (tailLogFile fs path events).file = f.content ++ appended events
    ∧ (∃ lines, (tailLogFile fs path events).out = tailBanner :: lines
        ∧ ∀ l ∈ lines, ∃ pre post,
            (tailLogFile fs path events).file = f.content ++ pre ++ l ++ post)
    ∧ (tailLogFile fs path events).out
        = (tailLogFile (fun _ => .ok ⟨[], none, none⟩) path events).out := by
  have h0 : TailInv f.content [] ⟨f.content, ⟨⟨f.content.length, []⟩, 0, [tailBanner]⟩⟩ := by
    refine ⟨by simp, Nat.le_refl _, ⟨[], by simp⟩, ⟨[], rfl, ?_⟩⟩
    intro l hl
    cases hl
  obtain ⟨hfile, _, _, ⟨lines, hout, hlines⟩⟩ := tailInv_loop events hno h0
  rw [List.nil_append] at hfile hlines
  rw [tailLogFile_ok hopen hstat hseek events, tailLogFile_ok hopen hstat hseek []]
  rw [@tailLogFile_ok (fun _ => .ok ⟨[], none, none⟩) path ⟨[], none, none⟩
    rfl rfl rfl events]
  refine ⟨rfl, hfile, ⟨lines, hout, ?_⟩, ?_⟩
  · intro l hl
    obtain ⟨pre, post, hp⟩ := hlines l hl
    exact ⟨pre, post, by simp only [hfile, hp, List.append_assoc]⟩
  · have hs := tailLoop_shift f.content events hno ⟨[], ⟨⟨0, []⟩, 0, [tailBanner]⟩⟩
    have hw : shiftWorld f.content ⟨[], ⟨⟨0, []⟩, 0, [tailBanner]⟩⟩
        = ⟨f.content, ⟨⟨f.content.length, []⟩, 0, [tailBanner]⟩⟩ := by
      simp [shiftWorld]
    rw [hw] at hs
    simp only [hs, shiftWorld, List.length_nil]

/-- Witness for C1: a file holding `old` and a newline when opened, to which
`new` and a newline are appended before one iteration of the loop. -/
theorem tailLogFile_no_replay_witness :
    (tailLogFile (fun _ => .ok ⟨"old\n".toList, none, none⟩) "/var/log/syslog"
        [.append "new\n".toList, .poll]).out = [tailBanner, "new\n".toList]
    ∧ (tailLogFile (fun _ => .ok ⟨"old\n".toList, none, none⟩) "/var/log/syslog"
        [.append "new\n".toList, .poll]).out
        = (tailLogFile (fun _ => .ok ⟨[], none, none⟩) "/var/log/syslog"
            [.append "new\n".toList, .poll]).out :=
  ⟨by decide,
    (tailLogFile_no_replay (fun _ => .ok ⟨"old\n".toList, none, none⟩) "/var/log/syslog"
      ⟨"old\n".toList, none, none⟩ [.append "new\n".toList, .poll] rfl rfl rfl
      (by simp)).2.2.2⟩

/-- C2 (what the code does): when a read of the tail loop meets a fragment `A`
with no newline yet, `ReadString` hands the fragment over together with an
error and the loop throws it away; once the rest `B0` and a newline have been
appended, the next read prints that rest only, not the line `A ++ B0` and a
newline. -/
theorem tailLogFile_drops_partial_line (fs : String → Except String OpenedFile)
    (path : String) (f : OpenedFile) (A B0 : Bytes)
    (hopen : fs path = .ok f) (hstat : f.statErr = none) (hseek : f.seekErr = none)
    (hA : A ≠ []) (hAn : '\n' ∉ A) (hB : '\n' ∉ B0) :
    (tailLogFile fs path [.append A, .poll, .append (B0 ++ ['\n']), .poll]).out
      = [tailBanner, B0 ++ ['\n']]
    ∧ (tailLogFile fs path [.append A, .poll, .append (B0 ++ ['\n']), .poll]).out
      ≠ [tailBanner, A ++ (B0 ++ ['\n'])] := by
  have key : (tailLogFile fs path [.append A, .poll, .append (B0 ++ ['\n']), .poll]).out
      = [tailBanner, B0 ++ ['\n']] := by
    rw [tailLogFile_ok hopen hstat hseek]
    simp only [tailLoop, List.foldl, step]
    generalize hinit : f.content = init
    -- the first read: the stream is the fragment `A`
    have hs1 : splitLine (([] : Bytes) ++ (init ++ A).drop init.length) = none := by
      rw [List.nil_append, List.drop_left]
      exact (splitLine_none_iff A).2 hAn
    obtain ⟨ho1, hr1⟩ := tailStep_of_none (t := ⟨⟨init.length, []⟩, 0, [tailBanner]⟩) hs1
    have hp1 := @tailStep_pos_le (init ++ A)
      ⟨⟨init.length, []⟩, 0, [tailBanner]⟩ (by simp)
    generalize tailStep (init ++ A) ⟨⟨init.length, []⟩, 0, [tailBanner]⟩ = t1 at ho1 hr1 hp1 ⊢
    obtain ⟨hbuf, hdrop⟩ := List.append_eq_nil.1 hr1
    have hpos : t1.rd.pos = (init ++ A).length := by
      have := List.drop_eq_nil_iff.1 hdrop
      omega
    -- the second read: the stream is `B0` and the newline
    have hs2 : splitLine (t1.rd.buf ++ (init ++ A ++ (B0 ++ ['\n'])).drop t1.rd.pos)
        = some (B0 ++ ['\n'], []) := by
      rw [hbuf, hpos, List.nil_append, List.drop_left]
      exact splitLine_terminated hB
    obtain ⟨ho2, _⟩ := tailStep_of_some hs2
    rw [ho2, ho1]
    rfl
  refine ⟨key, ?_⟩
  rw [key]
  intro h
  have h2 : B0 ++ ['\n'] = A ++ (B0 ++ ['\n']) := by
    simpa using h
  have h3 := congrArg List.length h2
  simp only [List.length_append] at h3
  have := List.length_pos.2 hA
  omega

/-- Witness for C2: the line `abc` arrives as `ab`, then `c` and the newline. -/
theorem tailLogFile_drops_partial_line_witness :
    (tailLogFile (fun _ => .ok ⟨"old\n".toList, none, none⟩) "/var/log/syslog"
        [.append "ab".toList, .poll, .append ("c".toList ++ ['\n']), .poll]).out
      = [tailBanner, "c\n".toList] :=
  (tailLogFile_drops_partial_line (fun _ => .ok ⟨"old\n".toList, none, none⟩)
    "/var/log/syslog" ⟨"old\n".toList, none, none⟩ "ab".toList "c".toList rfl rfl rfl
    (by decide) (by decide) (by decide)).1



/-- C3 (counterexample): the file holds `old` and a newline when opened, so
the read offset is 4; it is truncated to size 0 and `new` and a newline are
appended.  Three iterations of the loop print nothing but the banner, and no
number of iterations ever prints the new line. -/
theorem tailLogFile_rotation_counterexample :
    (tailLogFile (fun _ => .ok ⟨"old\n".toList, none, none⟩) "/var/log/syslog"
        ([.truncate 0, .append "new\n".toList] ++ List.replicate 3 .poll)).out = [tailBanner]
    ∧ ¬ ∃ k, "new\n".toList ∈
        (tailLogFile (fun _ => .ok ⟨"old\n".toList, none, none⟩) "/var/log/syslog"
          ([.truncate 0, .append "new\n".toList] ++ List.replicate k .poll)).out := by
  refine ⟨by decide, ?_⟩
  rintro ⟨k, hk⟩
  rw [@tailLogFile_ok (fun _ => .ok ⟨"old\n".toList, none, none⟩) "/var/log/syslog"
    ⟨"old\n".toList, none, none⟩ rfl rfl rfl, tailLoop_append] at hk
  have h := (tailLoop_polls k
    (tailLoop ⟨"old\n".toList, ⟨⟨"old\n".toList.length, []⟩, 0, [tailBanner]⟩⟩
      [.truncate 0, .append "new\n".toList])).2
  simp only at hk
  rw [h] at hk
  have hnone : completeLines
      ((tailLoop ⟨"old\n".toList, ⟨⟨"old\n".toList.length, []⟩, 0, [tailBanner]⟩⟩
          [.truncate 0, .append "new\n".toList]).t.rd.buf
        ++ (tailLoop ⟨"old\n".toList, ⟨⟨"old\n".toList.length, []⟩, 0, [tailBanner]⟩⟩
          [.truncate 0, .append "new\n".toList]).file.drop
          (tailLoop ⟨"old\n".toList, ⟨⟨"old\n".toList.length, []⟩, 0, [tailBanner]⟩⟩
          [.truncate 0, .append "new\n".toList]).t.rd.pos) = [] := by decide
  rw [hnone, List.take_nil, List.append_nil] at hk
  revert hk
  decide

/-- C3 (amended): `tailLogFile` neither reopens the file nor resets its offset
when the file is truncated.  After any run `pre`, if the file is truncated to
`n` bytes, `n` at most the read offset, and `d` is appended, then `k` further
iterations print, after what was printed before, exactly the first `k`
newline-terminated lines of the bytes still buffered followed by the part of
`d` that lies at file offsets from the read offset on; the bytes of `d` below
the read offset are never printed, and nothing printed before is printed again. -/
theorem tailLogFile_after_truncation (fs : String → Except String OpenedFile)
    (path : String) (f : OpenedFile) (pre : List Event) (n : Nat) (d : Bytes) (k : Nat)
    (hopen : fs path = .ok f) (hstat : f.statErr = none) (hseek : f.seekErr = none)
    (hn : n ≤ (tailLogFile fs path pre).file.length)
    (hpos : n ≤ (tailLogFile fs path pre).rd.pos) :
    (tailLogFile fs path (pre ++ [.truncate n, .append d] ++ List.replicate k .poll)).out
      = (tailLogFile fs path pre).out
        ++ (completeLines ((tailLogFile fs path pre).rd.buf
              ++ d.drop ((tailLogFile fs path pre).rd.pos - n))).take k
    ∧ (tailLogFile fs path (pre ++ [.truncate n, .append d] ++ List.replicate k .poll)).file
      = (tailLogFile fs path pre).file.take n ++ d := by
  rw [tailLogFile_ok hopen hstat hseek] at hn hpos ⊢
  rw [tailLogFile_ok hopen hstat hseek]
  simp only at hn hpos ⊢
  rw [tailLoop_append, tailLoop_append]
  generalize tailLoop ⟨f.content, ⟨⟨f.content.length, []⟩, 0, [tailBanner]⟩⟩ pre = w at hn hpos ⊢
  obtain ⟨hf, ho⟩ := tailLoop_polls k (tailLoop w [.truncate n, .append d])
  rw [hf, ho]
  have hw : tailLoop w [.truncate n, .append d] = ⟨w.file.take n ++ d, w.t⟩ := rfl
  rw [hw]
  refine ⟨?_, rfl⟩
  simp only
  have hlen : (w.file.take n).length = n := by
    rw [List.length_take]
    exact Nat.min_eq_left hn
  have hdrop : (w.file.take n ++ d).drop w.t.rd.pos = d.drop (w.t.rd.pos - n) := by
    rw [List.drop_append_eq_append_drop, hlen,
      List.drop_eq_nil_of_le (by rw [hlen]; exact hpos), List.nil_append]
  rw [hdrop]

/-- Witness for C3 (amended): the file holds nine bytes when opened; it is
truncated to size 0 and sixteen bytes are appended; two iterations print the
one line that lies beyond offset 9, `line-2`, cut from `new-line-2`. -/
theorem tailLogFile_after_truncation_witness :
    0 ≤ (tailLogFile (fun _ => .ok ⟨"old-line\n".toList, none, none⟩) "/var/log/syslog"
        []).rd.pos
    ∧ (tailLogFile (fun _ => .ok ⟨"old-line\n".toList, none, none⟩) "/var/log/syslog"
        ([] ++ [.truncate 0, .append "new1\nnew-line-2\n".toList]
          ++ List.replicate 2 .poll)).out
      = [tailBanner, "line-2\n".toList] :=
  ⟨by decide,
    (tailLogFile_after_truncation (fun _ => .ok ⟨"old-line\n".toList, none, none⟩)
      "/var/log/syslog" ⟨"old-line\n".toList, none, none⟩ [] 0
      "new1\nnew-line-2\n".toList 2 rfl rfl rfl (by decide) (by decide)).1.trans
      (by decide)⟩

/-- C8: when the path cannot be opened, `tailLogFile` returns the open error to
its caller without making any iteration of the tail loop and without printing
anything; `handleLogs`, having chosen that path, prints the error. -/
theorem tailLogFile_open_error (fs : String → Except String OpenedFile) (path e : String)
    (events : List Event) (hopen : fs path = .error e) :
    (tailLogFile fs path events).err = some e
    ∧ (tailLogFile fs path events).polls = 0
    ∧ (tailLogFile fs path events).out = []
    ∧ (∀ (goos : String) (stat : String → Bool) (servers customs : List String)
        (server : String), askServerType servers = some server →
        ((getLogPath goos server = path ∧ path ≠ "")
          ∨ (getLogPath goos server = "" ∧ askCustomLogPath stat customs = some path)) →
        (handleLogs goos stat fs servers customs events).printed
          = ["Tailing logs from: " ++ path ++ "\n\n", "Error tailing log: " ++ e ++ "\n"]) := by
  have hrun : tailLogFile fs path events
      = { err := some e, polls := 0, out := [], file := [], rd := ⟨0, []⟩ } := by
    unfold tailLogFile
    simp only [hopen]
  refine ⟨by rw [hrun], by rw [hrun], by rw [hrun], ?_⟩
  intro goos stat servers customs server hs hsel
  unfold handleLogs
  simp only [hs]
  rcases hsel with ⟨hp, hne⟩ | ⟨hp, hc⟩
  · have hb : (path == "") = false := by simpa using hne
    simp only [hp, hb, Bool.false_eq_true, if_false, hrun]
  · have hb : (getLogPath goos server == "") = true := by
      rw [hp]; rfl
    simp only [hb, if_true, hc, hrun]

/-- Witness for C8: no file can be opened; the server `nginx` is chosen on Linux. -/
theorem tailLogFile_open_error_witness :
    (tailLogFile (fun _ => .error "open /var/log/nginx/access.log: no such file or directory")
        "/var/log/nginx/access.log" [.append "x\n".toList, .poll]).err
      = some "open /var/log/nginx/access.log: no such file or directory"
    ∧ (handleLogs "linux" (fun _ => false)
        (fun _ => .error "open /var/log/nginx/access.log: no such file or directory")
        ["nginx"] [] [.append "x\n".toList, .poll]).printed
      = ["Tailing logs from: /var/log/nginx/access.log\n\n",
         "Error tailing log: open /var/log/nginx/access.log: no such file or directory\n"] := by
  have h := tailLogFile_open_error
    (fun _ => .error "open /var/log/nginx/access.log: no such file or directory")
    "/var/log/nginx/access.log" "open /var/log/nginx/access.log: no such file or directory"
    [.append "x\n".toList, .poll] rfl
  refine ⟨h.1, ?_⟩
  have h2 := h.2.2.2 "linux" (fun _ => false) ["nginx"] [] "nginx" (by decide)
    (Or.inl ⟨by decide, by decide⟩)
  rw [h2]
  decide

end ServerMonitor
